import Mathlib

/-!
# Shallow embedding of the subnet calculator (src/mask.c)

Conventions of the embedding.

* A `uint32_t` is a natural number below `2 ^ 32`; every arithmetic step that can
  leave that range is reduced modulo `2 ^ 32` where the C code does so.
* The host is little-endian with 64-bit `long` (x86-64 Linux, glibc), so `htonl`
  and `ntohl` are the 32-bit byte swap, and `s_addr` holds the first octet of a
  dotted address in its least significant byte.
* A C string is the list of its characters, without the terminating NUL; a
  `char *` that may be `NULL` is an `Option`.
* `exit(EXIT_FAILURE)` is an `Except.error` that names the exit path.
* Text written to standard output is returned as a list of lines.
-/

namespace Mask

/-- A C string: its characters, terminating NUL left out. -/
abbrev CStr := List Char

/-- The ways the program stops with `exit(EXIT_FAILURE)`: one constructor for each
message of mask.c.  The last two are not exits of the program: `undefined_shift`
marks a shift by 32 or more, undefined in C (never reached, see
`cidr_to_netmask_eq`), and `out_of_fuel` marks a loop bound of the embedding that
is too small (never reached, see `is_valid_ip_ne_out_of_fuel`). -/
inductive Exit where
  | strtol_perror
  | strtol_no_digits
  | strtoul_perror
  | invalid_cidr
  | missing_cidr
  | invalid_ip
  | missing_mask
  | invalid_mask
  | undefined_shift
  | out_of_fuel
  deriving DecidableEq, Repr

deriving instance DecidableEq for Except

/-! ## 32-bit unsigned arithmetic -/

/-- Addition of `uint32_t`. -/
def add32 (a b : Nat) : Nat := (a + b) % 2 ^ 32

/-- Subtraction of `uint32_t` (wraps below zero). -/
def sub32 (a b : Nat) : Nat := (a + 2 ^ 32 - b % 2 ^ 32) % 2 ^ 32

/-- Multiplication of `uint32_t`. -/
def mul32 (a b : Nat) : Nat := (a * b) % 2 ^ 32

/-- Bitwise complement `~x` of a `uint32_t`. -/
def not32 (x : Nat) : Nat := x ^^^ 0xFFFFFFFF

/-- Left shift of a 32-bit unsigned value, truncated to 32 bits. -/
def shl32 (x n : Nat) : Nat := (x <<< n) % 2 ^ 32

/-- Byte swap of a 32-bit value. -/
def bswap32 (x : Nat) : Nat :=
  ((x % 2 ^ 8) <<< 24) ||| (((x >>> 8) % 2 ^ 8) <<< 16)
    ||| (((x >>> 16) % 2 ^ 8) <<< 8) ||| ((x >>> 24) % 2 ^ 8)

/-- Library `htonl` on a little-endian host. -/
def htonl (x : Nat) : Nat := bswap32 x

/-- Library `ntohl` on a little-endian host. -/
def ntohl (x : Nat) : Nat := bswap32 x

/-! ## C library: character classes, strtol, strtoul, strtok -/

/-- Library `isdigit` in the C locale. -/
def isdigit (c : Char) : Bool := decide (48 ≤ c.toNat) && decide (c.toNat ≤ 57)

/-- Library `isspace` in the C locale: space, `\t`, `\n`, `\v`, `\f`, `\r`. -/
def isspace (c : Char) : Bool :=
  decide (c.toNat = 32) || (decide (9 ≤ c.toNat) && decide (c.toNat ≤ 13))

/-- Value of a run of decimal digits, most significant first. -/
def digitsValue (ds : CStr) : Nat :=
  ds.foldl (fun acc c => acc * 10 + (c.toNat - 48)) 0

/-- The constant `LONG_MAX` (64-bit `long`). -/
def LONG_MAX : Int := 2 ^ 63 - 1

/-- The constant `LONG_MIN` (64-bit `long`). -/
def LONG_MIN : Int := -(2 ^ 63)

/-- The constant `ULONG_MAX` (64-bit `unsigned long`). -/
def ULONG_MAX : Nat := 2 ^ 64 - 1

/-- The constant `ERANGE` of errno.h. -/
def ERANGE : Nat := 34

/-- What a `strtol`/`strtoul` call leaves behind: the value, how many characters
`endptr` lies past the start of the string, and `errno`. -/
structure Strto (α : Type) where
  result : α
  consumed : Nat
  errno : Nat
  deriving DecidableEq, Repr

/-- The subject sequence of `strtol`/`strtoul` in base 10: white space is skipped,
one optional sign is read, then the longest run of digits.  Returns whether a
minus sign was read, the digits, and the number of characters up to the end of
the digits. -/
def scanNumber (s : CStr) : Bool × CStr × Nat :=
  let ws := s.takeWhile isspace
  let s1 := s.dropWhile isspace
  let neg := decide (s1.head? = some '-')
  let signed := decide (s1.head? = some '-') || decide (s1.head? = some '+')
  let s2 := if signed then s1.drop 1 else s1
  let ds := s2.takeWhile isdigit
  (neg, ds, ws.length + (if signed then 1 else 0) + ds.length)

/-- Library `strtol(str, &endptr, 10)` with `errno` cleared before the call
(glibc: no digits leaves `errno` at 0 and `endptr` at `str`). -/
def strtol (s : CStr) : Strto Int :=
  match scanNumber s with
  | (neg, ds, n) =>
    if ds = [] then ⟨0, 0, 0⟩
    else if neg then
      if (digitsValue ds : Int) > -LONG_MIN then ⟨LONG_MIN, n, ERANGE⟩
      else ⟨-(digitsValue ds : Int), n, 0⟩
    else
      if (digitsValue ds : Int) > LONG_MAX then ⟨LONG_MAX, n, ERANGE⟩
      else ⟨(digitsValue ds : Int), n, 0⟩

/-- Library `strtoul(str, &endptr, 10)` with `errno` cleared before the call: a
value above `ULONG_MAX` is clamped with `ERANGE`, a minus sign negates the value
in `unsigned long` arithmetic. -/
def strtoul (s : CStr) : Strto Nat :=
  match scanNumber s with
  | (neg, ds, n) =>
    if ds = [] then ⟨0, 0, 0⟩
    else if digitsValue ds > ULONG_MAX then ⟨ULONG_MAX, n, ERANGE⟩
    else if neg then ⟨(2 ^ 64 - digitsValue ds) % 2 ^ 64, n, 0⟩
    else ⟨digitsValue ds, n, 0⟩

/-- Library `strtok`: one call on the string `s` (the argument of a first call, or
the saved position of a later call with `NULL`).  Leading delimiters are skipped;
the token runs to the next delimiter, which is overwritten; the saved position is
just past it.  Returns the token (`none` for `NULL`) and the saved position. -/
def strtok (s delim : CStr) : Option CStr × CStr :=
  let s1 := s.dropWhile (fun c => decide (c ∈ delim))
  if s1 = [] then (none, [])
  else (some (s1.takeWhile (fun c => !decide (c ∈ delim))),
        (s1.dropWhile (fun c => !decide (c ∈ delim))).drop 1)

/-! ## mask.c -/

/-- Function `str_to_long` (mask.c 52-71). -/
def str_to_long (str : CStr) : Except Exit Int :=
  let r := strtol str
  if (r.errno = ERANGE ∧ (r.result = LONG_MAX ∨ r.result = LONG_MIN))
      ∨ (r.errno ≠ 0 ∧ r.result = 0) then
    .error .strtol_perror
  else if r.consumed = 0 then
    .error .strtol_no_digits
  else
    .ok r.result

/-- A label printed with `%-12s` followed by one blank. -/
def label12 (s : String) : CStr :=
  s.toList ++ List.replicate (12 - s.toList.length) ' ' ++ [' ']

/-- The text `print_class` writes after the label, before the newline
(mask.c 81-130), for the host-order value `ip`. -/
def class_text (ip : Nat) : CStr :=
  if ip ≥ 0xf0000000 ∧ ip ≤ 0xfffffffe then
    "Class E".toList
  else if ip ≥ 0xe0000000 ∧ ip ≤ 0xefffffff then
    "Class D, Multicast".toList
  else if ip ≥ 0xc0000000 ∧ ip ≤ 0xdfffffff then
    "Class C".toList ++
      (if ip ≥ 0xc0000200 ∧ ip ≤ 0xc00002ff then ", TEST-NET-1".toList
       else if ip ≥ 0xc6336400 ∧ ip ≤ 0xc63364ff then ", TEST-NET-2".toList
       else if ip ≥ 0xcb007100 ∧ ip ≤ 0xcb0071ff then ", TEST-NET-3".toList
       else if ip ≥ 0xc0a80000 ∧ ip ≤ 0xc0a8ffff then ", Private".toList
       else [])
  else if ip ≥ 0x80000000 ∧ ip ≤ 0xbfffffff then
    "Class B".toList ++
      (if ip ≥ 0xac100000 ∧ ip ≤ 0xac1fffff then ", Private".toList
       else if ip ≥ 0xa9fe0000 ∧ ip ≤ 0xa9feffff then ", APIPA".toList
       else [])
  else if ip ≤ 0x7fffffff then
    "Class A".toList ++
      (if ip ≥ 0x0a000000 ∧ ip ≤ 0x0affffff then ", Private".toList
       else if ip ≥ 0x7f000000 ∧ ip ≤ 0x7f1fffff then ", Loopback".toList
       else if ip ≤ 0x00ffffff then ", Local".toList
       else [])
  else
    "Other".toList

/-- Function `print_class` (mask.c 77-132): the line it writes. -/
def print_class (addr : Nat) : CStr :=
  let ip := ntohl addr
  label12 "Class:" ++ class_text ip ++ [Char.ofNat 10]

/-- Function `is_valid_mask` (mask.c 139-145). -/
def is_valid_mask (netmask : Nat) : Bool :=
  let t := ntohl netmask
  let i := not32 t
  let j := add32 i 1
  decide ((i &&& j) = 0)

/-- The `while(temp)` loop of `is_valid_ip` (mask.c 182-191), entered with the
token `temp`, the saved position `save` of strtok and the counter `i`.  Returns
`none` where the function returns 0 from inside the loop, else the counter at
loop exit.  `fuel` bounds the number of further tokens. -/
def is_valid_ip_loop (fuel : Nat) (temp save : CStr) (i : Nat) : Except Exit (Option Nat) :=
  match str_to_long temp with
  | .error e => .error e
  | .ok j =>
    if j > 255 ∨ j < 0 then .ok none
    else
      match strtok save ['.'] with
      | (none, _) => .ok (some (i + 1))
      | (some t, rest) =>
        match fuel with
        | 0 => .error .out_of_fuel
        | f + 1 => is_valid_ip_loop f t rest (i + 1)

/-- Function `is_valid_ip` (mask.c 152-202). -/
def is_valid_ip (ip : Option CStr) : Except Exit Bool :=
  match ip with
  | none => .ok false
  | some nip =>
    if nip.any (fun c => decide (c ≠ '.') && !isdigit c) then .ok false
    else
      match strtok nip ['.'] with
      | (none, _) => .ok false
      | (some temp, save) =>
        match is_valid_ip_loop save.length temp save 0 with
        | .error e => .error e
        | .ok none => .ok false
        | .ok (some i) => if i ≠ 4 then .ok false else .ok true

/-- Function `split_cidr` (mask.c 211-215): the returned address part and the
string stored through `net`. -/
def split_cidr (cidr : CStr) : Option CStr × Option CStr :=
  let r := strtok cidr ['/']
  (r.1, (strtok r.2 ['-']).1)

/-- Function `increment_ip` (mask.c 223-227). -/
def increment_ip (ip : Nat) : Nat :=
  let temp := ntohl ip
  htonl (add32 temp 1)

/-- Function `decrement_ip` (mask.c 235-239). -/
def decrement_ip (ip : Nat) : Nat :=
  let temp := ntohl ip
  htonl (sub32 temp 1)

/-- Library `inet_ntoa`: the four bytes of `s_addr` in memory order, in decimal,
joined by dots. -/
def inet_ntoa (s_addr : Nat) : CStr :=
  Nat.toDigits 10 (s_addr % 2 ^ 8) ++ '.' :: Nat.toDigits 10 ((s_addr >>> 8) % 2 ^ 8)
    ++ '.' :: Nat.toDigits 10 ((s_addr >>> 16) % 2 ^ 8)
    ++ '.' :: Nat.toDigits 10 ((s_addr >>> 24) % 2 ^ 8)

/-- Function `ip_to_str` (mask.c 248-260): `strncpy` of at most 20 characters. -/
def ip_to_str (ip : Nat) : CStr :=
  (inet_ntoa ip).take 20

/-- The scanning loop of glibc `inet_pton4`: `saw` is `saw_digit`, `done` the bytes
of `tmp` before `tp`, `cur` the byte at `tp`. -/
def inet_pton4_loop : CStr → Bool → Nat → List Nat → Nat → Option (List Nat)
  | [], _, octets, done, cur => if octets < 4 then none else some (done ++ [cur])
  | ch :: src, saw, octets, done, cur =>
    if isdigit ch then
      if saw && decide (cur = 0) then none
      else if cur * 10 + (ch.toNat - 48) > 255 then none
      else if !saw then
        if octets + 1 > 4 then none
        else inet_pton4_loop src true (octets + 1) done (cur * 10 + (ch.toNat - 48))
      else inet_pton4_loop src true octets done (cur * 10 + (ch.toNat - 48))
    else if decide (ch = '.') && saw then
      if octets = 4 then none
      else inet_pton4_loop src false octets (done ++ [cur]) 0
    else none

/-- Library `inet_pton(AF_INET, src, dst)` (glibc): `some` the value stored in
`s_addr` when the call returns 1, `none` when it returns 0 and leaves `dst`
untouched. -/
def inet_pton (src : CStr) : Option Nat :=
  match inet_pton4_loop src false 0 [] 0 with
  | some [b0, b1, b2, b3] => some (b0 + b1 * 2 ^ 8 + b2 * 2 ^ 16 + b3 * 2 ^ 24)
  | _ => none

/-- Function `str_to_ip` (mask.c 269-276).  The return value of `inet_pton` is not
checked: when it fails, the function returns what the uninitialised `sa` held,
given here as `junk`. -/
def str_to_ip (junk : Nat) (addr : CStr) : Nat :=
  match inet_pton addr with
  | some ip => ip
  | none => junk % 2 ^ 32

/-- Function `cidr_to_int` (mask.c 284-303). -/
def cidr_to_int (cidr : CStr) : Except Exit Nat :=
  let r := strtoul cidr
  if (r.errno = ERANGE ∧ r.result = ULONG_MAX) ∨ (r.errno ≠ 0 ∧ r.result = 0) then
    .error .strtoul_perror
  else if r.result < 1 ∨ r.result > 32 then
    .error .invalid_cidr
  else
    .ok (r.result % 2 ^ 32)

/-- Function `cidr_to_netmask` (mask.c 311-319).  A shift by 32 or more, undefined
in C, is reported as `undefined_shift`. -/
def cidr_to_netmask (cidr : CStr) : Except Exit Nat :=
  match cidr_to_int cidr with
  | .error e => .error e
  | .ok net =>
    if sub32 32 net ≥ 32 then .error .undefined_shift
    else
      let subnet := shl32 0xFFFFFFFF (sub32 32 net) &&& 0xFFFFFFFF
      .ok (htonl subnet)

/-- Function `netmask_to_wildcard` (mask.c 327-330). -/
def netmask_to_wildcard (netmask : Nat) : Nat :=
  0xffffffff &&& not32 netmask

/-- The `while(netmask)` loop of `netmask_to_cidr` (mask.c 341-344).  Each round
strictly lowers `netmask`, so `fuel ≥ netmask` never ends the loop early
(see `netmask_to_cidr_loop_fuel`). -/
def netmask_to_cidr_loop : Nat → Nat → Nat → Nat
  | 0, _, count => count
  | fuel + 1, netmask, count =>
    if netmask = 0 then count
    else netmask_to_cidr_loop fuel (netmask &&& sub32 netmask 1) (add32 count 1)

/-- Function `netmask_to_cidr` (mask.c 338-347). -/
def netmask_to_cidr (netmask : Nat) : Nat :=
  netmask_to_cidr_loop netmask netmask 0

/-- Function `first_ip` (mask.c 356-360). -/
def first_ip (ip netmask : Nat) : Nat :=
  ip &&& netmask

/-- Function `last_ip` (mask.c 369-373). -/
def last_ip (ip netmask : Nat) : Nat :=
  0xffffffff &&& (ip ||| not32 netmask)

/-- The `while(host != 0)` loop of `total_addrs` (mask.c 385-388). -/
def total_addrs_loop : Nat → Nat → Nat
  | 0, addrs => addrs
  | host + 1, addrs => total_addrs_loop host (mul32 addrs 2)

/-- Function `total_addrs` (mask.c 381-392). -/
def total_addrs (cidr : Nat) : Nat :=
  total_addrs_loop (sub32 32 cidr) 1

/-- The local variables of `print_from_cidr` / `print_from_netmask` when the report
is printed, and the lines written to standard output. -/
structure Report where
  ipaddr : Nat
  netmask : Nat
  cidr : Nat
  total : Nat
  first : Nat
  last : Nat
  fuse : Nat
  luse : Nat
  wildcard : CStr
  nstr : CStr
  fstr : CStr
  lstr : CStr
  fustr : CStr
  lustr : CStr
  stdout : List CStr
  deriving DecidableEq, Repr

/-- The eight `printf` lines of a report (mask.c 438-445, 507-514); `shown` is the
text after `=` on the Subnet line. -/
def report_lines (ip shown : CStr) (ipaddr total : Nat)
    (nstr wildcard fstr lstr fustr lustr : CStr) : List CStr :=
  [ label12 "IP Address:" ++ ip ++ [Char.ofNat 10],
    label12 "Subnet:" ++ nstr ++ " = ".toList ++ shown ++ [Char.ofNat 10],
    label12 "Wildcard:" ++ wildcard ++ [Char.ofNat 10],
    label12 "IP Range:" ++ fstr ++ " -> ".toList ++ lstr ++ [Char.ofNat 10],
    label12 "Host Min:" ++ fustr ++ [Char.ofNat 10],
    label12 "Host Max:" ++ lustr ++ [Char.ofNat 10],
    label12 "Hosts:" ++ Nat.toDigits 10 total ++ [Char.ofNat 10],
    print_class ipaddr ]

/-- Function `print_from_cidr` (mask.c 399-455).  `junk` is the content of the
uninitialised `sa` of `str_to_ip`. -/
def print_from_cidr (junk : Nat) (addr : CStr) : Except Exit Report :=
  match split_cidr addr with
  | (_, none) => .error .missing_cidr
  | (ip, some net) =>
    match is_valid_ip ip, ip with
    | .error e, _ => .error e
    | .ok false, _ => .error .invalid_ip
    | .ok true, none => .error .invalid_ip
    | .ok true, some ip =>
      let ipaddr := str_to_ip junk ip
      match cidr_to_netmask net, cidr_to_int net with
      | .error e, _ => .error e
      | .ok _, .error e => .error e
      | .ok netmask, .ok cidr =>
        let wildcard := ip_to_str (netmask_to_wildcard netmask)
        let total := sub32 (total_addrs cidr) 2
        let first := first_ip ipaddr netmask
        let last := last_ip ipaddr netmask
        let fuse := increment_ip first
        let luse := decrement_ip last
        let nstr := ip_to_str netmask
        let fstr := ip_to_str first
        let lstr := ip_to_str last
        let fustr := ip_to_str fuse
        let lustr := ip_to_str luse
        .ok { ipaddr := ipaddr, netmask := netmask, cidr := cidr, total := total,
              first := first, last := last, fuse := fuse, luse := luse,
              wildcard := wildcard, nstr := nstr, fstr := fstr, lstr := lstr,
              fustr := fustr, lustr := lustr,
              stdout := report_lines ip net ipaddr total nstr wildcard fstr lstr fustr lustr }

/-- Function `print_from_netmask` (mask.c 463-523).  `junk1` and `junk2` are the
contents of the uninitialised `sa` in the two calls of `str_to_ip`. -/
def print_from_netmask (junk1 junk2 : Nat) (addr : CStr) (subnet : Option CStr) :
    Except Exit Report :=
  match subnet with
  | none => .error .missing_mask
  | some mask =>
    match is_valid_ip (some mask) with
    | .error e => .error e
    | .ok false => .error .missing_mask
    | .ok true =>
      match is_valid_ip (some addr) with
      | .error e => .error e
      | .ok false => .error .invalid_ip
      | .ok true =>
        let ipaddr := str_to_ip junk1 addr
        let netmask := str_to_ip junk2 mask
        match is_valid_ip (some mask) with
        | .error e => .error e
        | .ok valid =>
          if !valid || !is_valid_mask netmask then .error .invalid_mask
          else
            let cidr := netmask_to_cidr netmask
            let wildcard := ip_to_str (netmask_to_wildcard netmask)
            let total := sub32 (total_addrs cidr) 2
            let first := first_ip ipaddr netmask
            let last := last_ip ipaddr netmask
            let fuse := increment_ip first
            let luse := decrement_ip last
            let nstr := ip_to_str netmask
            let fstr := ip_to_str first
            let lstr := ip_to_str last
            let fustr := ip_to_str fuse
            let lustr := ip_to_str luse
            .ok { ipaddr := ipaddr, netmask := netmask, cidr := cidr, total := total,
                  first := first, last := last, fuse := fuse, luse := luse,
                  wildcard := wildcard, nstr := nstr, fstr := fstr, lstr := lstr,
                  fustr := fustr, lustr := lustr,
                  stdout := report_lines addr (Nat.toDigits 10 cidr) ipaddr total
                    nstr wildcard fstr lstr fustr lustr }


/-! ## Reference definitions, written from the specification -/

/-- One row of the range table of the classifier in the specification: bounds of
the class, its name, and its special-use sub-ranges in the order they are tried. -/
structure ClassRow where
  lo : Nat
  hi : Nat
  name : String
  subs : List (Nat × Nat × String)

/-- The range table of the specification (section 4.4), in its order. -/
def spec_class_table : List ClassRow :=
  [ ⟨0xF0000000, 0xFFFFFFFE, "Class E", []⟩,
    ⟨0xE0000000, 0xEFFFFFFF, "Class D", [(0xE0000000, 0xEFFFFFFF, "Multicast")]⟩,
    ⟨0xC0000000, 0xDFFFFFFF, "Class C",
      [(0xC0000200, 0xC00002FF, "TEST-NET-1"), (0xC6336400, 0xC63364FF, "TEST-NET-2"),
       (0xCB007100, 0xCB0071FF, "TEST-NET-3"), (0xC0A80000, 0xC0A8FFFF, "Private")]⟩,
    ⟨0x80000000, 0xBFFFFFFF, "Class B",
      [(0xAC100000, 0xAC1FFFFF, "Private"), (0xA9FE0000, 0xA9FEFFFF, "APIPA")]⟩,
    ⟨0x00000000, 0x7FFFFFFF, "Class A",
      [(0x0A000000, 0x0AFFFFFF, "Private"), (0x7F000000, 0x7F1FFFFF, "Loopback"),
       (0x00000000, 0x00FFFFFF, "Local")]⟩ ]

/-- The classifier of the specification: the first row whose range holds the
address gives the class, the first of its sub-ranges that holds the address gives
the tag; an address in no row is "Other". -/
def spec_classify (ip : Nat) : String × Option String :=
  match spec_class_table.find? (fun r => decide (r.lo ≤ ip ∧ ip ≤ r.hi)) with
  | some r =>
    (r.name, (r.subs.find? (fun s => decide (s.1 ≤ ip ∧ ip ≤ s.2.1))).map (·.2.2))
  | none => ("Other", none)

/-- How a classification is written: the class, then a comma and the tag if there
is one. -/
def spec_class_text (c : String × Option String) : CStr :=
  match c.2 with
  | some tag => c.1.toList ++ ", ".toList ++ tag.toList
  | none => c.1.toList

/-- The values of a subnet that the specification defines (section 4.3), as
integers. -/
structure SubnetValues where
  network : Int
  broadcast : Int
  firstUsable : Int
  lastUsable : Int
  hostCount : Int
  deriving DecidableEq, Repr

/-- The reference definitions of the specification (section 4.3) on host-order
values, for the address `a`, the mask `mask` and the prefix length `p`: network
`a AND mask`, broadcast `a OR (NOT mask)`, first usable `network + 1`, last usable
`broadcast - 1`, these four as integers without any reduction, and host count
`(2^(32-p) - 2) mod 2^32`. -/
def spec_subnet (a mask p : Nat) : SubnetValues :=
  { network := ((a &&& mask : Nat) : Int)
    broadcast := ((a ||| not32 mask : Nat) : Int)
    firstUsable := ((a &&& mask : Nat) : Int) + 1
    lastUsable := ((a ||| not32 mask : Nat) : Int) - 1
    hostCount := ((2 : Int) ^ (32 - p) - 2) % 2 ^ 32 }

/-- The values a report holds, read in host order. -/
def Report.host_values (r : Report) : SubnetValues :=
  { network := (ntohl r.first : Int)
    broadcast := (ntohl r.last : Int)
    firstUsable := (ntohl r.fuse : Int)
    lastUsable := (ntohl r.luse : Int)
    hostCount := (r.total : Int) }

/-- Population count of a 32-bit value: the number of bit positions 0..31 in which
it has a 1. -/
def spec_popcount (m : Nat) : Nat :=
  (List.range 32).countP (fun i => m.testBit i)


/-- Dotted-decimal text of four octets: each in decimal, joined by dots. -/
def dotted (b0 b1 b2 b3 : Nat) : CStr :=
  Nat.toDigits 10 b0 ++ '.' :: (Nat.toDigits 10 b1 ++ '.' ::
    (Nat.toDigits 10 b2 ++ '.' :: Nat.toDigits 10 b3))

/-- Text of a list of octets, each in decimal and each followed by a dot. -/
def octets_text : List Nat → CStr
  | [] => []
  | b :: bs => Nat.toDigits 10 b ++ '.' :: octets_text bs

/-! ## Bit-level facts about the 32-bit operations -/

theorem allOnes_eq : (0xFFFFFFFF : Nat) = 2 ^ 32 - 1 := by norm_num

theorem testBit_not32 (x i : Nat) :
    (not32 x).testBit i = xor (x.testBit i) (decide (i < 32)) := by
  unfold not32
  rw [allOnes_eq, Nat.testBit_xor, Nat.testBit_two_pow_sub_one]

theorem not32_lt {x : Nat} (hx : x < 2 ^ 32) : not32 x < 2 ^ 32 := by
  unfold not32
  exact Nat.xor_lt_two_pow hx (by norm_num)

theorem not32_eq_sub {x : Nat} (hx : x < 2 ^ 32) : not32 x = 2 ^ 32 - 1 - x := by
  apply Nat.eq_of_testBit_eq
  intro i
  have h : 2 ^ 32 - 1 - x = 2 ^ 32 - (x + 1) := by omega
  rw [h, Nat.testBit_two_pow_sub_succ hx, testBit_not32]
  by_cases hi : i < 32
  · simp [hi]
  · have : x.testBit i = false :=
      Nat.testBit_lt_two_pow (lt_of_lt_of_le hx (Nat.pow_le_pow_right (by norm_num) (by omega)))
    simp [hi, this]

theorem testBit_bswap32 (x i : Nat) :
    (bswap32 x).testBit i =
      ((decide (i < 8) && x.testBit (i + 24)) || (decide (8 ≤ i ∧ i < 16) && x.testBit (i + 8))
        || (decide (16 ≤ i ∧ i < 24) && x.testBit (i - 8))
        || (decide (24 ≤ i ∧ i < 32) && x.testBit (i - 24))) := by
  unfold bswap32
  simp only [Nat.testBit_or, Nat.testBit_shiftLeft, Nat.testBit_mod_two_pow,
    Nat.testBit_shiftRight]
  have hc : i < 8 ∨ (8 ≤ i ∧ i < 16) ∨ (16 ≤ i ∧ i < 24) ∨ (24 ≤ i ∧ i < 32) ∨ 32 ≤ i := by
    omega
  rcases hc with h | h | h | h | h
  · have e : 24 + i = i + 24 := by omega
    simp [h, e, show ¬ (24 ≤ i) by omega, show ¬ (16 ≤ i) by omega, show ¬ (8 ≤ i) by omega]
  · have e : 16 + (i - 8) = i + 8 := by omega
    simp [h, e, show ¬ (24 ≤ i) by omega, show ¬ (16 ≤ i) by omega, show ¬ (i < 8) by omega,
      show i - 8 < 8 by omega]
  · have e : 8 + (i - 16) = i - 8 := by omega
    simp [h, e, show ¬ (24 ≤ i) by omega, show ¬ (i < 16) by omega, show ¬ (i < 8) by omega,
      show i - 16 < 8 by omega, show 8 ≤ i by omega, show ¬ (i - 8 < 8) by omega]
  · simp [h, show ¬ (i < 24) by omega, show ¬ (i < 16) by omega, show ¬ (i < 8) by omega,
      show i - 24 < 8 by omega, show 8 ≤ i by omega, show 16 ≤ i by omega,
      show ¬ (i - 8 < 8) by omega, show ¬ (i - 16 < 8) by omega]
  · simp [show ¬ (i < 32) by omega, show ¬ (i < 24) by omega, show ¬ (i < 16) by omega,
      show ¬ (i < 8) by omega, show ¬ (i - 24 < 8) by omega, show ¬ (i - 16 < 8) by omega,
      show ¬ (i - 8 < 8) by omega]

theorem bswap32_lt (x : Nat) : bswap32 x < 2 ^ 32 := by
  apply Nat.lt_pow_two_of_testBit
  intro i hi
  rw [testBit_bswap32]
  simp [show ¬ (i < 32) by omega, show ¬ (i < 24) by omega, show ¬ (i < 16) by omega,
    show ¬ (i < 8) by omega]

theorem bswap32_bswap32 {x : Nat} (hx : x < 2 ^ 32) : bswap32 (bswap32 x) = x := by
  apply Nat.eq_of_testBit_eq
  intro i
  rw [testBit_bswap32]
  simp only [testBit_bswap32]
  have hc : i < 8 ∨ (8 ≤ i ∧ i < 16) ∨ (16 ≤ i ∧ i < 24) ∨ (24 ≤ i ∧ i < 32) ∨ 32 ≤ i := by
    omega
  rcases hc with h | h | h | h | h
  · simp [h, show ¬ (8 ≤ i) by omega, show ¬ (16 ≤ i) by omega, show ¬ (24 ≤ i) by omega,
      show ¬ (i + 24 < 8) by omega, show ¬ (i + 24 < 16) by omega, show ¬ (i + 24 < 24) by omega,
      show i + 24 < 32 by omega]
  · simp [h, show ¬ (i < 8) by omega, show ¬ (16 ≤ i) by omega, show ¬ (24 ≤ i) by omega,
      show ¬ (i + 8 < 8) by omega, show ¬ (i + 8 < 16) by omega, show i + 8 < 24 by omega,
      show 16 ≤ i + 8 by omega, show ¬ (24 ≤ i + 8) by omega, show i + 8 - 8 = i by omega]
  · simp [h, show ¬ (i < 8) by omega, show ¬ (i < 16) by omega, show ¬ (24 ≤ i) by omega,
      show ¬ (i - 8 < 8) by omega, show i - 8 < 16 by omega, show 8 ≤ i - 8 by omega,
      show ¬ (16 ≤ i - 8) by omega, show ¬ (24 ≤ i - 8) by omega, show i - 8 + 8 = i by omega]
  · simp [h, show ¬ (i < 8) by omega, show ¬ (i < 16) by omega, show ¬ (i < 24) by omega,
      show i - 24 < 8 by omega, show ¬ (8 ≤ i - 24) by omega, show ¬ (16 ≤ i - 24) by omega,
      show ¬ (24 ≤ i - 24) by omega, show i - 24 + 24 = i by omega]
  · have : x.testBit i = false :=
      Nat.testBit_lt_two_pow (lt_of_lt_of_le hx (Nat.pow_le_pow_right (by norm_num) h))
    simp [this, show ¬ (i < 32) by omega, show ¬ (i < 24) by omega, show ¬ (i < 16) by omega,
      show ¬ (i < 8) by omega]

theorem bswap32_and (a b : Nat) : bswap32 (a &&& b) = bswap32 a &&& bswap32 b := by
  apply Nat.eq_of_testBit_eq
  intro i
  simp only [testBit_bswap32, Nat.testBit_and]
  have hc : i < 8 ∨ (8 ≤ i ∧ i < 16) ∨ (16 ≤ i ∧ i < 24) ∨ (24 ≤ i ∧ i < 32) ∨ 32 ≤ i := by
    omega
  rcases hc with h | h | h | h | h
  · simp [h, show ¬ (8 ≤ i) by omega, show ¬ (16 ≤ i) by omega, show ¬ (24 ≤ i) by omega]
  · simp [h, show ¬ (i < 8) by omega, show ¬ (16 ≤ i) by omega, show ¬ (24 ≤ i) by omega]
  · simp [h, show ¬ (i < 8) by omega, show ¬ (i < 16) by omega, show ¬ (24 ≤ i) by omega]
  · simp [h, show ¬ (i < 8) by omega, show ¬ (i < 16) by omega, show ¬ (i < 24) by omega]
  · simp [show ¬ (i < 32) by omega, show ¬ (i < 24) by omega, show ¬ (i < 16) by omega,
      show ¬ (i < 8) by omega]

theorem bswap32_or (a b : Nat) : bswap32 (a ||| b) = bswap32 a ||| bswap32 b := by
  apply Nat.eq_of_testBit_eq
  intro i
  simp only [testBit_bswap32, Nat.testBit_or]
  have hc : i < 8 ∨ (8 ≤ i ∧ i < 16) ∨ (16 ≤ i ∧ i < 24) ∨ (24 ≤ i ∧ i < 32) ∨ 32 ≤ i := by
    omega
  rcases hc with h | h | h | h | h
  · simp [h, show ¬ (8 ≤ i) by omega, show ¬ (16 ≤ i) by omega, show ¬ (24 ≤ i) by omega]
  · simp [h, show ¬ (i < 8) by omega, show ¬ (16 ≤ i) by omega, show ¬ (24 ≤ i) by omega]
  · simp [h, show ¬ (i < 8) by omega, show ¬ (i < 16) by omega, show ¬ (24 ≤ i) by omega]
  · simp [h, show ¬ (i < 8) by omega, show ¬ (i < 16) by omega, show ¬ (i < 24) by omega]
  · simp [show ¬ (i < 32) by omega, show ¬ (i < 24) by omega, show ¬ (i < 16) by omega,
      show ¬ (i < 8) by omega]

theorem bswap32_not32 (a : Nat) : bswap32 (not32 a) = not32 (bswap32 a) := by
  apply Nat.eq_of_testBit_eq
  intro i
  simp only [testBit_bswap32, testBit_not32]
  have hc : i < 8 ∨ (8 ≤ i ∧ i < 16) ∨ (16 ≤ i ∧ i < 24) ∨ (24 ≤ i ∧ i < 32) ∨ 32 ≤ i := by
    omega
  rcases hc with h | h | h | h | h
  · simp [h, show ¬ (8 ≤ i) by omega, show ¬ (16 ≤ i) by omega, show ¬ (24 ≤ i) by omega,
      show i + 24 < 32 by omega, show i < 32 by omega]
  · simp [h, show ¬ (i < 8) by omega, show ¬ (16 ≤ i) by omega, show ¬ (24 ≤ i) by omega,
      show i + 8 < 32 by omega, show i < 32 by omega]
  · simp [h, show ¬ (i < 8) by omega, show ¬ (i < 16) by omega, show ¬ (24 ≤ i) by omega,
      show i - 8 < 32 by omega, show i < 32 by omega]
  · simp [h, show ¬ (i < 8) by omega, show ¬ (i < 16) by omega, show ¬ (i < 24) by omega,
      show i - 24 < 32 by omega]
  · simp [show ¬ (i < 32) by omega, show ¬ (i < 24) by omega, show ¬ (i < 16) by omega,
      show ¬ (i < 8) by omega]

theorem and_succ_eq_zero_iff (n : Nat) : n &&& (n + 1) = 0 ↔ ∃ k, n = 2 ^ k - 1 := by
  constructor
  · induction n using Nat.strong_induction_on with
    | _ n ih =>
      intro h
      by_cases hn : n = 0
      · exact ⟨0, by simp [hn]⟩
      · have h2 : n / 2 &&& (n + 1) / 2 = 0 := by rw [← Nat.and_div_two, h]
        rcases Nat.mod_two_eq_zero_or_one n with hp | hp
        · have e : (n + 1) / 2 = n / 2 := by omega
          rw [e, Nat.and_self] at h2
          omega
        · have e : (n + 1) / 2 = n / 2 + 1 := by omega
          rw [e] at h2
          obtain ⟨k, hk⟩ := ih (n / 2) (by omega) h2
          refine ⟨k + 1, ?_⟩
          have hpos : 0 < 2 ^ k := Nat.two_pow_pos k
          rw [pow_succ]
          omega
  · rintro ⟨k, rfl⟩
    have hpos : 0 < 2 ^ k := Nat.two_pow_pos k
    have e : 2 ^ k - 1 + 1 = 2 ^ k := by omega
    rw [e, Nat.and_comm, Nat.and_pow_two_sub_one_eq_mod, Nat.mod_self]

theorem and_add32_one_eq_zero_iff {i : Nat} (hi : i < 2 ^ 32) :
    i &&& add32 i 1 = 0 ↔ ∃ k, k ≤ 32 ∧ i = 2 ^ k - 1 := by
  unfold add32
  by_cases hmax : i = 2 ^ 32 - 1
  · subst hmax
    constructor
    · intro _
      exact ⟨32, le_refl _, rfl⟩
    · intro _
      norm_num
  · have e : (i + 1) % 2 ^ 32 = i + 1 := Nat.mod_eq_of_lt (by omega)
    rw [e, and_succ_eq_zero_iff]
    constructor
    · rintro ⟨k, hk⟩
      refine ⟨k, ?_, hk⟩
      by_contra hlt
      have : 2 ^ 33 ≤ 2 ^ k := Nat.pow_le_pow_right (by norm_num) (by omega)
      omega
    · rintro ⟨k, _, hk⟩
      exact ⟨k, hk⟩

theorem shl32_allOnes {k : Nat} (hk : k ≤ 32) :
    shl32 0xFFFFFFFF (32 - k) = 2 ^ 32 - 2 ^ (32 - k) := by
  unfold shl32
  interval_cases k <;> decide

theorem is_valid_mask_iff_not32 (m : Nat) :
    is_valid_mask m = true ↔ ∃ k, k ≤ 32 ∧ not32 (ntohl m) = 2 ^ k - 1 := by
  unfold is_valid_mask
  simp only [decide_eq_true_eq]
  exact and_add32_one_eq_zero_iff (not32_lt (bswap32_lt m))

theorem not32_eq_pow_sub_one_iff {t j : Nat} (ht : t < 2 ^ 32) (hj : j ≤ 32) :
    not32 t = 2 ^ j - 1 ↔ t = 2 ^ 32 - 2 ^ j := by
  rw [not32_eq_sub ht]
  have h1 : 2 ^ j ≤ 2 ^ 32 := Nat.pow_le_pow_right (by norm_num) hj
  have h2 : 0 < 2 ^ j := Nat.two_pow_pos j
  omega

theorem sub32_of_le {a b : Nat} (hb : b ≤ a) (ha : a < 2 ^ 32) : sub32 a b = a - b := by
  unfold sub32
  rw [Nat.mod_eq_of_lt (lt_of_le_of_lt hb ha)]
  omega

theorem total_addrs_loop_eq (h a : Nat) (hlt : a * 2 ^ h < 2 ^ 32) :
    total_addrs_loop h a = a * 2 ^ h := by
  induction h generalizing a with
  | zero => simp [total_addrs_loop]
  | succ h ih =>
    have e : a * 2 ^ (h + 1) = a * 2 * 2 ^ h := by rw [pow_succ]; ring
    have hpos : 0 < 2 ^ h := Nat.two_pow_pos h
    have hle : a * 2 ≤ a * 2 * 2 ^ h := Nat.le_mul_of_pos_right _ hpos
    have hm : mul32 a 2 = a * 2 := by
      unfold mul32
      exact Nat.mod_eq_of_lt (by omega)
    rw [total_addrs_loop, hm, ih (a * 2) (by omega), e]

theorem total_addrs_of_le {p : Nat} (h1 : 1 ≤ p) (h2 : p ≤ 32) :
    total_addrs p = 2 ^ (32 - p) := by
  unfold total_addrs
  rw [sub32_of_le h2 (by norm_num), total_addrs_loop_eq _ _ (by
    rw [Nat.one_mul]
    exact Nat.pow_lt_pow_right (by norm_num) (by omega)), Nat.one_mul]

theorem netmask_step_lt {n : Nat} (hn : n ≠ 0) : n &&& sub32 n 1 < n := by
  have h : sub32 n 1 < n := by
    unfold sub32
    by_cases hlt : n < 2 ^ 32
    · rw [Nat.mod_eq_of_lt (show 1 < 2 ^ 32 by norm_num)]
      omega
    · have : (n + 2 ^ 32 - 1 % 2 ^ 32) % 2 ^ 32 < 2 ^ 32 := Nat.mod_lt _ (by norm_num)
      omega
  exact lt_of_le_of_lt Nat.and_le_right h

/-- The loop bound of `netmask_to_cidr_loop` is never the reason the loop stops:
any bound at least `netmask` gives the same count. -/
theorem netmask_to_cidr_loop_fuel (fuel netmask count : Nat) (h : netmask ≤ fuel) :
    netmask_to_cidr_loop fuel netmask count = netmask_to_cidr_loop netmask netmask count := by
  induction fuel using Nat.strong_induction_on generalizing netmask count with
  | _ fuel ih =>
    cases fuel with
    | zero =>
      have : netmask = 0 := by omega
      subst this
      rfl
    | succ f =>
      cases netmask with
      | zero => simp [netmask_to_cidr_loop]
      | succ n =>
        have hlt : n + 1 &&& sub32 (n + 1) 1 < n + 1 := netmask_step_lt (Nat.succ_ne_zero n)
        simp only [netmask_to_cidr_loop, Nat.succ_ne_zero, if_false]
        rw [ih f (by omega) _ _ (by omega), ih n (by omega) _ _ (by omega)]

theorem cidr_to_int_range {s : CStr} {n : Nat} (h : cidr_to_int s = .ok n) :
    1 ≤ n ∧ n ≤ 32 ∧ (strtoul s).result = n := by
  unfold cidr_to_int at h
  simp only at h
  split_ifs at h with h1 h2
  have e : n = (strtoul s).result % 2 ^ 32 := by
    injection h with h
    exact h.symm
  omega

theorem cidr_to_int_toDigits {p : Nat} (h1 : 1 ≤ p) (h2 : p ≤ 32) :
    cidr_to_int (Nat.toDigits 10 p) = .ok p := by
  interval_cases p <;> decide

theorem cidr_to_netmask_eq {s : CStr} {n : Nat} (h : cidr_to_int s = .ok n) :
    cidr_to_netmask s = .ok (htonl (2 ^ 32 - 2 ^ (32 - n))) := by
  obtain ⟨h1, h2, _⟩ := cidr_to_int_range h
  unfold cidr_to_netmask
  rw [h]
  have hs : sub32 32 n = 32 - n := sub32_of_le h2 (by norm_num)
  have hlt : 2 ^ 32 - 2 ^ (32 - n) < 2 ^ 32 := by
    have : 0 < 2 ^ (32 - n) := Nat.two_pow_pos _
    omega
  have e := shl32_allOnes h2
  simp only [hs, show ¬ (32 - n ≥ 32) by omega, if_false, e]
  rw [allOnes_eq, Nat.and_pow_two_sub_one_eq_mod, Nat.mod_eq_of_lt hlt]

theorem ntohl_htonl {x : Nat} (hx : x < 2 ^ 32) : ntohl (htonl x) = x :=
  bswap32_bswap32 hx

theorem netmask_to_cidr_htonl_mask {p : Nat} (h1 : 1 ≤ p) (h2 : p ≤ 32) :
    netmask_to_cidr (htonl (2 ^ 32 - 2 ^ (32 - p))) = p := by
  interval_cases p <;> decide

theorem class_text_eq_spec (ip : Nat) : class_text ip = spec_class_text (spec_classify ip) := by
  unfold class_text
  simp only [ge_iff_le]
  split_ifs <;>
    simp only [spec_classify, spec_class_table, spec_class_text, List.find?, Option.map, *,
      decide_True, decide_False, Nat.zero_le, true_and, and_self] <;>
    rfl

theorem class_text_comma_count (ip : Nat) : (class_text ip).count ',' ≤ 1 := by
  unfold class_text
  split_ifs <;> decide

theorem class_text_cases {ip : Nat} (h : ip < 2 ^ 32) :
    (ip = 0xFFFFFFFF ∧ class_text ip = "Other".toList) ∨
      (ip ≠ 0xFFFFFFFF ∧ (class_text ip).take 7 ∈
        ["Class A".toList, "Class B".toList, "Class C".toList, "Class D".toList,
         "Class E".toList]) := by
  unfold class_text
  simp only [ge_iff_le]
  split_ifs <;>
    first
      | (right; exact ⟨by omega, by decide⟩)
      | (left; exact ⟨by omega, rfl⟩)

theorem strtok_save_length {s delim t rest : CStr} (h : strtok s delim = (some t, rest)) :
    rest.length < s.length := by
  unfold strtok at h
  simp only at h
  have hsuf : (s.dropWhile (fun c => decide (c ∈ delim))).length ≤ s.length :=
    (List.dropWhile_suffix _).length_le
  have hhead := List.head_dropWhile_not (fun c => decide (c ∈ delim)) s
  generalize s.dropWhile (fun c => decide (c ∈ delim)) = s1 at h hsuf hhead
  cases s1 with
  | nil => simp at h
  | cons a tl =>
    have ha : (decide (a ∈ delim)) = false := by
      simpa using hhead (List.cons_ne_nil _ _)
    simp only [List.cons_ne_nil a tl, if_false, Prod.mk.injEq] at h
    obtain ⟨_, h2⟩ := h
    subst h2
    have hd : (a :: tl).dropWhile (fun c => !decide (c ∈ delim))
        = tl.dropWhile (fun c => !decide (c ∈ delim)) := by
      rw [List.dropWhile_cons]
      simp [ha]
    rw [hd]
    have h3 : (tl.dropWhile (fun c => !decide (c ∈ delim))).length ≤ tl.length :=
      (List.dropWhile_suffix _).length_le
    simp only [List.length_cons] at hsuf
    rw [List.length_drop]
    omega

theorem str_to_long_ne_out_of_fuel (temp : CStr) :
    str_to_long temp ≠ .error .out_of_fuel := by
  unfold str_to_long
  simp only
  split_ifs <;> exact fun he => by cases he

/-- The loop bound of `is_valid_ip_loop` is never the reason the loop stops: any
bound at least the length of the saved position gives the same result. -/
theorem is_valid_ip_loop_fuel (fuel : Nat) (temp save : CStr) (i : Nat)
    (h : save.length ≤ fuel) :
    is_valid_ip_loop fuel temp save i = is_valid_ip_loop save.length temp save i := by
  induction fuel using Nat.strong_induction_on generalizing temp save i with
  | _ fuel ih =>
    rw [is_valid_ip_loop.eq_def]
    conv_rhs => rw [is_valid_ip_loop.eq_def]
    cases hj : str_to_long temp with
    | error e => rfl
    | ok j =>
      simp only
      split_ifs
      · rfl
      · rcases hst : strtok save ['.'] with ⟨tok, rest⟩
        cases tok with
        | none => rfl
        | some t =>
          have hlt := strtok_save_length hst
          cases fuel with
          | zero => omega
          | succ f =>
            cases hl : save.length with
            | zero => omega
            | succ n =>
              simp only
              rw [ih f (by omega) t rest (i + 1) (by omega),
                ih n (by omega) t rest (i + 1) (by omega)]

theorem is_valid_ip_loop_ne_out_of_fuel (fuel : Nat) (temp save : CStr) (i : Nat)
    (h : save.length ≤ fuel) :
    is_valid_ip_loop fuel temp save i ≠ .error .out_of_fuel := by
  induction fuel generalizing temp save i with
  | zero =>
    have hs : save = [] := List.length_eq_zero.1 (by omega)
    subst hs
    rw [is_valid_ip_loop.eq_def]
    have hne := str_to_long_ne_out_of_fuel temp
    cases hj : str_to_long temp with
    | error e =>
      simp only
      rw [hj] at hne
      intro he
      injection he with he
      exact hne (by rw [he])
    | ok j =>
      simp only
      split_ifs
      · exact fun he => by cases he
      · simp [strtok]
  | succ f ih =>
    rw [is_valid_ip_loop.eq_def]
    have hne := str_to_long_ne_out_of_fuel temp
    cases hj : str_to_long temp with
    | error e =>
      simp only
      rw [hj] at hne
      intro he
      injection he with he
      exact hne (by rw [he])
    | ok j =>
      simp only
      split_ifs
      · exact fun he => by cases he
      · rcases hst : strtok save ['.'] with ⟨tok, rest⟩
        cases tok with
        | none => exact fun he => by cases he
        | some t =>
          have hlt := strtok_save_length hst
          exact ih t rest (i + 1) (by omega)

/-- The function `is_valid_ip` always returns or exits: the loop bound of the
embedding is never exhausted. -/
theorem is_valid_ip_ne_out_of_fuel (ip : Option CStr) :
    is_valid_ip ip ≠ .error .out_of_fuel := by
  unfold is_valid_ip
  cases ip with
  | none => exact fun he => by cases he
  | some nip =>
    simp only
    split_ifs
    · exact fun he => by cases he
    · rcases hst : strtok nip ['.'] with ⟨tok, save⟩
      cases tok with
      | none => exact fun he => by cases he
      | some temp =>
        simp only
        have hne := is_valid_ip_loop_ne_out_of_fuel save.length temp save 0 (le_refl _)
        cases hl : is_valid_ip_loop save.length temp save 0 with
        | error e =>
          simp only
          rw [hl] at hne
          intro he
          injection he with he
          exact hne (by rw [he])
        | ok r =>
          cases r with
          | none => exact fun he => by cases he
          | some i =>
            simp only
            split_ifs <;> exact fun he => by cases he

theorem ntohl_first_ip (a m : Nat) : ntohl (first_ip a m) = ntohl a &&& ntohl m :=
  bswap32_and a m

theorem ntohl_last_ip (a m : Nat) : ntohl (last_ip a m) = ntohl a ||| not32 (ntohl m) := by
  unfold last_ip ntohl
  have h1 : bswap32 0xffffffff = 2 ^ 32 - 1 := by decide
  have hlt : bswap32 a ||| not32 (bswap32 m) < 2 ^ 32 :=
    Nat.or_lt_two_pow (bswap32_lt a) (not32_lt (bswap32_lt m))
  rw [bswap32_and, bswap32_or, bswap32_not32, h1, Nat.and_comm,
    Nat.and_pow_two_sub_one_eq_mod, Nat.mod_eq_of_lt hlt]

theorem ntohl_increment_ip (x : Nat) : ntohl (increment_ip x) = (ntohl x + 1) % 2 ^ 32 := by
  unfold increment_ip
  simp only
  have h : add32 (ntohl x) 1 < 2 ^ 32 := Nat.mod_lt _ (by norm_num)
  rw [ntohl_htonl h]
  rfl

theorem ntohl_decrement_ip (x : Nat) :
    ntohl (decrement_ip x) = (ntohl x + (2 ^ 32 - 1)) % 2 ^ 32 := by
  unfold decrement_ip
  simp only
  have h : sub32 (ntohl x) 1 < 2 ^ 32 := Nat.mod_lt _ (by norm_num)
  rw [ntohl_htonl h]
  unfold sub32
  have : ntohl x < 2 ^ 32 := bswap32_lt x
  omega

theorem sub32_two_cast (x : Nat) (hx : x < 2 ^ 32) :
    ((sub32 x 2 : Nat) : Int) = ((x : Int) - 2) % 2 ^ 32 := by
  unfold sub32
  omega

/-- What `print_from_cidr` returns once its three checks pass. -/
theorem print_from_cidr_ok (junk : Nat) {s ip net : CStr} {p : Nat}
    (hsplit : split_cidr s = (some ip, some net))
    (hip : is_valid_ip (some ip) = .ok true) (hp : cidr_to_int net = .ok p) :
    ∃ r, print_from_cidr junk s = .ok r ∧ r.ipaddr = str_to_ip junk ip ∧
      r.netmask = htonl (2 ^ 32 - 2 ^ (32 - p)) ∧ r.cidr = p ∧
      r.total = sub32 (total_addrs p) 2 ∧
      r.first = first_ip r.ipaddr r.netmask ∧ r.last = last_ip r.ipaddr r.netmask ∧
      r.fuse = increment_ip r.first ∧ r.luse = decrement_ip r.last ∧
      r.wildcard = ip_to_str (netmask_to_wildcard r.netmask) ∧
      r.nstr = ip_to_str r.netmask ∧ r.fstr = ip_to_str r.first ∧
      r.lstr = ip_to_str r.last ∧ r.fustr = ip_to_str r.fuse ∧
      r.lustr = ip_to_str r.luse ∧
      r.stdout = report_lines ip net r.ipaddr r.total r.nstr r.wildcard r.fstr r.lstr
        r.fustr r.lustr := by
  unfold print_from_cidr
  rw [hsplit]
  simp only [hip, cidr_to_netmask_eq hp, hp]
  exact ⟨_, rfl, rfl, rfl, rfl, rfl, rfl, rfl, rfl, rfl, rfl, rfl, rfl, rfl, rfl, rfl, rfl⟩

/-- What `print_from_netmask` returns once its checks pass. -/
theorem print_from_netmask_ok (junk1 junk2 : Nat) {addr mask : CStr}
    (hmask : is_valid_ip (some mask) = .ok true)
    (haddr : is_valid_ip (some addr) = .ok true)
    (hvalid : is_valid_mask (str_to_ip junk2 mask) = true) :
    ∃ r, print_from_netmask junk1 junk2 addr (some mask) = .ok r ∧
      r.ipaddr = str_to_ip junk1 addr ∧ r.netmask = str_to_ip junk2 mask ∧
      r.cidr = netmask_to_cidr r.netmask ∧
      r.total = sub32 (total_addrs r.cidr) 2 ∧
      r.first = first_ip r.ipaddr r.netmask ∧ r.last = last_ip r.ipaddr r.netmask ∧
      r.fuse = increment_ip r.first ∧ r.luse = decrement_ip r.last ∧
      r.wildcard = ip_to_str (netmask_to_wildcard r.netmask) ∧
      r.nstr = ip_to_str r.netmask ∧ r.fstr = ip_to_str r.first ∧
      r.lstr = ip_to_str r.last ∧ r.fustr = ip_to_str r.fuse ∧
      r.lustr = ip_to_str r.luse ∧
      r.stdout = report_lines addr (Nat.toDigits 10 r.cidr) r.ipaddr r.total r.nstr
        r.wildcard r.fstr r.lstr r.fustr r.lustr := by
  unfold print_from_netmask
  simp only [hmask, haddr, hvalid, Bool.not_true, Bool.or_self, Bool.false_eq_true, if_false]
  exact ⟨_, rfl, rfl, rfl, rfl, rfl, rfl, rfl, rfl, rfl, rfl, rfl, rfl, rfl, rfl, rfl, rfl⟩

theorem usable_no_wrap {a mask p : Nat} (hp : p ≤ 31) (hmask : mask = 2 ^ 32 - 2 ^ (32 - p)) :
    (a &&& mask) + 1 < 2 ^ 32 ∧ 1 ≤ (a ||| not32 mask) := by
  have hpow : (2 : Nat) ^ (32 - p) = 2 * 2 ^ (31 - p) := by
    rw [show 32 - p = (31 - p) + 1 by omega, pow_succ]
    ring
  have hle : (2 : Nat) ^ (32 - p) ≤ 2 ^ 32 := Nat.pow_le_pow_right (by norm_num) (by omega)
  have hpos : 0 < (2 : Nat) ^ (31 - p) := Nat.two_pow_pos _
  have hmlt : mask < 2 ^ 32 := by omega
  have hmeven : mask % 2 = 0 := by omega
  have hnot : not32 mask % 2 = 1 := by
    rw [not32_eq_sub hmlt]
    omega
  have hand : (a &&& mask) % 2 ≠ 1 := by
    rw [Ne, Nat.and_mod_two_eq_one]
    omega
  have hor : (a ||| not32 mask) % 2 = 1 := by
    rw [Nat.or_mod_two_eq_one]
    exact Or.inr hnot
  have hlt : a &&& mask < 2 ^ 32 := Nat.and_lt_two_pow a hmlt
  omega

/-- The dotted text of the mask of prefix length `p` is accepted by `is_valid_ip`. -/
theorem mask_text_valid {p : Nat} (h1 : 1 ≤ p) (h2 : p ≤ 32) :
    is_valid_ip (some (ip_to_str (htonl (2 ^ 32 - 2 ^ (32 - p))))) = .ok true := by
  interval_cases p <;> decide

/-- The dotted text of the mask of prefix length `p` is parsed back to the mask. -/
theorem mask_text_parsed {p : Nat} (h1 : 1 ≤ p) (h2 : p ≤ 32) :
    inet_pton (ip_to_str (htonl (2 ^ 32 - 2 ^ (32 - p))))
      = some (htonl (2 ^ 32 - 2 ^ (32 - p))) := by
  interval_cases p <;> decide

/-! ## Population count -/

theorem countP_testBit_succ (k n : Nat) :
    (List.range (k + 1)).countP (fun i => n.testBit i)
      = n % 2 + (List.range k).countP (fun i => (n / 2).testBit i) := by
  rw [List.range_succ_eq_map, List.countP_cons, List.countP_map]
  have hf : ((fun i => n.testBit i) ∘ Nat.succ) = (fun i => (n / 2).testBit i) := by
    funext i
    simp [Nat.testBit_succ]
  rw [hf, Nat.testBit_zero]
  rcases Nat.mod_two_eq_zero_or_one n with h | h
  · simp [h]
  · simp [h]
    omega

theorem countP_clear_lowest (k n : Nat) (hn : n ≠ 0) (hlt : n < 2 ^ k) :
    (List.range k).countP (fun i => (n &&& (n - 1)).testBit i) + 1
      = (List.range k).countP (fun i => n.testBit i) := by
  induction k generalizing n with
  | zero => simp at hlt; omega
  | succ k ih =>
    rw [countP_testBit_succ, countP_testBit_succ, Nat.and_div_two]
    have hpow : 2 ^ (k + 1) = 2 * 2 ^ k := by rw [pow_succ]; ring
    have hm : (n &&& (n - 1)) % 2 = 0 := by
      have h := @Nat.and_mod_two_eq_one n (n - 1)
      rcases Nat.mod_two_eq_zero_or_one (n &&& (n - 1)) with h0 | h1
      · exact h0
      · have := h.1 h1
        omega
    rcases Nat.mod_two_eq_zero_or_one n with h | h
    · have e : (n - 1) / 2 = n / 2 - 1 := by omega
      rw [hm, h, e, ← ih (n / 2) (by omega) (by omega)]
      omega
    · have e : (n - 1) / 2 = n / 2 := by omega
      rw [hm, h, e, Nat.and_self]
      omega

theorem spec_popcount_le (m : Nat) : spec_popcount m ≤ 32 := by
  unfold spec_popcount
  have := List.countP_le_length (fun i => m.testBit i) (l := List.range 32)
  simpa using this

theorem netmask_to_cidr_loop_eq (fuel n c : Nat) (hn : n < 2 ^ 32)
    (hf : spec_popcount n ≤ fuel) (hc : c + spec_popcount n < 2 ^ 32) :
    netmask_to_cidr_loop fuel n c = c + spec_popcount n := by
  induction fuel generalizing n c with
  | zero =>
    have : spec_popcount n = 0 := by omega
    rw [netmask_to_cidr_loop, this]
    rfl
  | succ f ih =>
    by_cases h0 : n = 0
    · subst h0
      simp [netmask_to_cidr_loop, spec_popcount]
    · have hs : sub32 n 1 = n - 1 := sub32_of_le (by omega) hn
      have hstep := countP_clear_lowest 32 n h0 hn
      have hlt : n &&& (n - 1) < 2 ^ 32 := lt_of_le_of_lt Nat.and_le_left hn
      unfold spec_popcount at hf hc ih ⊢
      have ha : add32 c 1 = c + 1 := by
        unfold add32
        exact Nat.mod_eq_of_lt (by omega)
      simp only [netmask_to_cidr_loop, h0, if_false, hs, ha]
      rw [ih (n &&& (n - 1)) (c + 1) hlt (by omega) (by omega)]
      omega

theorem netmask_to_cidr_eq_popcount {m : Nat} (hm : m < 2 ^ 32) :
    netmask_to_cidr m = spec_popcount m := by
  unfold netmask_to_cidr
  rw [← netmask_to_cidr_loop_fuel (max m 32) m 0 (le_max_left _ _),
    netmask_to_cidr_loop_eq _ _ _ hm (le_trans (spec_popcount_le m) (le_max_right _ _))
      (by have := spec_popcount_le m; omega)]
  omega


/-! ## strtok on delimited text -/

theorem strtok_token_then_delim {d rest : CStr} (x : Char) (hne : d ≠ [])
    (hd : ∀ c ∈ d, c ≠ x) : strtok (d ++ x :: rest) [x] = (some d, rest) := by
  unfold strtok
  cases d with
  | nil => exact absurd rfl hne
  | cons a tl =>
    have ha : a ≠ x := hd a (List.mem_cons_self _ _)
    have h1 : List.dropWhile (fun c => decide (c ∈ [x])) (a :: tl ++ x :: rest)
        = a :: tl ++ x :: rest := by
      rw [List.cons_append, List.dropWhile_cons_of_neg]
      simpa using ha
    have hall : ∀ c ∈ a :: tl, (fun c => !decide (c ∈ [x])) c = true := by
      intro c hc
      simpa using hd c hc
    simp only [h1]
    rw [List.takeWhile_append_of_pos hall, List.dropWhile_append_of_pos hall]
    simp

theorem strtok_last_token {d : CStr} (x : Char) (hne : d ≠ [])
    (hd : ∀ c ∈ d, c ≠ x) : strtok d [x] = (some d, []) := by
  unfold strtok
  cases d with
  | nil => exact absurd rfl hne
  | cons a tl =>
    have ha : a ≠ x := hd a (List.mem_cons_self _ _)
    have h1 : List.dropWhile (fun c => decide (c ∈ [x])) (a :: tl) = a :: tl := by
      rw [List.dropWhile_cons_of_neg]
      simpa using ha
    have hall : ∀ c ∈ a :: tl, (fun c => !decide (c ∈ [x])) c = true := by
      intro c hc
      simpa using hd c hc
    simp only [h1]
    have h2 := @List.takeWhile_append_of_pos _ _ _ [] hall
    have h3 := @List.dropWhile_append_of_pos _ _ _ [] hall
    simp only [List.append_nil] at h2 h3
    rw [h2, h3]
    simp

/-! ## Decimal text of an octet -/

theorem isdigit_ne_dot {c : Char} (h : isdigit c = true) : c ≠ '.' := by
  intro hc
  subst hc
  exact absurd h (by decide)

set_option maxRecDepth 100000 in
theorem octet_text_facts : ∀ b, b < 256 →
    (Nat.toDigits 10 b ≠ [] ∧ (Nat.toDigits 10 b).all isdigit = true ∧
      (Nat.toDigits 10 b).length ≤ 3 ∧ str_to_long (Nat.toDigits 10 b) = .ok (b : Int)) := by
  decide

theorem octet_text_ne_nil {b : Nat} (h : b < 256) : Nat.toDigits 10 b ≠ [] :=
  (octet_text_facts b h).1

theorem octet_text_isdigit {b : Nat} (h : b < 256) : ∀ c ∈ Nat.toDigits 10 b, isdigit c = true :=
  List.all_eq_true.1 (octet_text_facts b h).2.1

theorem octet_text_no_dot {b : Nat} (h : b < 256) : ∀ c ∈ Nat.toDigits 10 b, c ≠ '.' :=
  fun c hc => isdigit_ne_dot (octet_text_isdigit h c hc)

theorem octet_text_length {b : Nat} (h : b < 256) : (Nat.toDigits 10 b).length ≤ 3 :=
  (octet_text_facts b h).2.2.1

theorem str_to_long_octet_text {b : Nat} (h : b < 256) :
    str_to_long (Nat.toDigits 10 b) = .ok (b : Int) :=
  (octet_text_facts b h).2.2.2

theorem pton_first_digit {c : Char} {rest : CStr} {oct : Nat} {done : List Nat}
    (hc : isdigit c = true) (ho : oct < 4) :
    inet_pton4_loop (c :: rest) false oct done 0
      = inet_pton4_loop rest true (oct + 1) done (c.toNat - 48) := by
  have h9 : c.toNat - 48 ≤ 9 := by
    unfold isdigit at hc
    simp only [Bool.and_eq_true, decide_eq_true_eq] at hc
    omega
  rw [inet_pton4_loop]
  simp only [hc, if_true, Bool.false_and, Bool.false_eq_true, if_false, Nat.zero_mul,
    Nat.zero_add, Bool.not_false, show ¬ (c.toNat - 48 > 255) by omega,
    show ¬ (oct + 1 > 4) by omega]

theorem pton_next_digit {c : Char} {rest : CStr} {oct cur : Nat} {done : List Nat}
    (hc : isdigit c = true) (h0 : cur ≠ 0) (hle : cur * 10 + (c.toNat - 48) ≤ 255) :
    inet_pton4_loop (c :: rest) true oct done cur
      = inet_pton4_loop rest true oct done (cur * 10 + (c.toNat - 48)) := by
  rw [inet_pton4_loop]
  simp only [hc, if_true, Bool.true_and, decide_eq_true_eq, h0, if_false,
    show ¬ (cur * 10 + (c.toNat - 48) > 255) by omega, Bool.not_true, Bool.false_eq_true]

set_option maxRecDepth 100000 in
theorem octet_text_shape : ∀ b, b < 256 →
    ((b < 10 ∧ Nat.toDigits 10 b = [Char.ofNat (48 + b)]) ∨
      (10 ≤ b ∧ b < 100 ∧
        Nat.toDigits 10 b = [Char.ofNat (48 + b / 10), Char.ofNat (48 + b % 10)]) ∨
      (100 ≤ b ∧ Nat.toDigits 10 b
        = [Char.ofNat (48 + b / 100), Char.ofNat (48 + b / 10 % 10), Char.ofNat (48 + b % 10)])) := by
  decide

theorem digit_char_facts : ∀ v, v < 10 →
    (isdigit (Char.ofNat (48 + v)) = true ∧ (Char.ofNat (48 + v)).toNat - 48 = v) := by
  decide

theorem pton_octet_text {b : Nat} (hb : b < 256) (rest : CStr) {oct : Nat} (done : List Nat)
    (ho : oct < 4) :
    inet_pton4_loop (Nat.toDigits 10 b ++ rest) false oct done 0
      = inet_pton4_loop rest true (oct + 1) done b := by
  rcases octet_text_shape b hb with ⟨h1, e⟩ | ⟨h1, h2, e⟩ | ⟨h1, e⟩
  · obtain ⟨d0, v0⟩ := digit_char_facts b h1
    rw [e, List.singleton_append, pton_first_digit d0 ho, v0]
  · obtain ⟨d0, v0⟩ := digit_char_facts (b / 10) (by omega)
    obtain ⟨d1, v1⟩ := digit_char_facts (b % 10) (Nat.mod_lt _ (by norm_num))
    rw [e]
    simp only [List.cons_append, List.nil_append]
    rw [pton_first_digit d0 ho, v0, pton_next_digit d1 (by omega) (by rw [v1]; omega), v1]
    congr 1
    omega
  · obtain ⟨d0, v0⟩ := digit_char_facts (b / 100) (by omega)
    obtain ⟨d1, v1⟩ := digit_char_facts (b / 10 % 10) (Nat.mod_lt _ (by norm_num))
    obtain ⟨d2, v2⟩ := digit_char_facts (b % 10) (Nat.mod_lt _ (by norm_num))
    rw [e]
    simp only [List.cons_append, List.nil_append]
    rw [pton_first_digit d0 ho, v0, pton_next_digit d1 (by omega) (by rw [v1]; omega), v1,
      pton_next_digit d2 (by omega) (by rw [v2]; omega), v2]
    congr 1
    omega

theorem pton_dot {rest : CStr} {oct cur : Nat} {done : List Nat} (ho : oct ≠ 4) :
    inet_pton4_loop ('.' :: rest) true oct done cur
      = inet_pton4_loop rest false oct (done ++ [cur]) 0 := by
  rw [inet_pton4_loop]
  simp only [show isdigit '.' = false by decide, Bool.false_eq_true, if_false, decide_True,
    Bool.and_self, if_true, ho]

/-! ## Dotted-decimal text: formatting, validation, parsing -/

theorem inet_ntoa_eq_dotted (a : Nat) :
    inet_ntoa a
      = dotted (a % 2 ^ 8) ((a >>> 8) % 2 ^ 8) ((a >>> 16) % 2 ^ 8) ((a >>> 24) % 2 ^ 8) := by
  unfold inet_ntoa dotted
  simp [List.append_assoc]

theorem dotted_length {b0 b1 b2 b3 : Nat} (h0 : b0 < 256) (h1 : b1 < 256) (h2 : b2 < 256)
    (h3 : b3 < 256) : (dotted b0 b1 b2 b3).length ≤ 15 := by
  have l0 := octet_text_length h0
  have l1 := octet_text_length h1
  have l2 := octet_text_length h2
  have l3 := octet_text_length h3
  unfold dotted
  simp only [List.length_append, List.length_cons]
  omega

theorem ip_to_str_eq_dotted (a : Nat) :
    ip_to_str a
      = dotted (a % 2 ^ 8) ((a >>> 8) % 2 ^ 8) ((a >>> 16) % 2 ^ 8) ((a >>> 24) % 2 ^ 8) := by
  unfold ip_to_str
  rw [inet_ntoa_eq_dotted]
  have hm : ∀ x : Nat, x % 2 ^ 8 < 256 := fun x => Nat.mod_lt _ (by norm_num)
  exact List.take_of_length_le
    (le_trans (dotted_length (hm _) (hm _) (hm _) (hm _)) (by norm_num))

theorem is_valid_ip_loop_last {b : Nat} (hb : b < 256) (fuel i : Nat) :
    is_valid_ip_loop fuel (Nat.toDigits 10 b) [] i = .ok (some (i + 1)) := by
  rw [is_valid_ip_loop.eq_def, str_to_long_octet_text hb]
  have hs : strtok [] ['.'] = (none, []) := by decide
  simp only [hs]
  rw [if_neg (by omega)]

theorem is_valid_ip_loop_step {b : Nat} (hb : b < 256) {save t rest : CStr}
    (hst : strtok save ['.'] = (some t, rest)) (fuel i : Nat) :
    is_valid_ip_loop (fuel + 1) (Nat.toDigits 10 b) save i
      = is_valid_ip_loop fuel t rest (i + 1) := by
  rw [is_valid_ip_loop.eq_def, str_to_long_octet_text hb]
  simp only [hst]
  rw [if_neg (by omega)]

theorem is_valid_ip_dotted {b0 b1 b2 b3 : Nat} (h0 : b0 < 256) (h1 : b1 < 256)
    (h2 : b2 < 256) (h3 : b3 < 256) :
    is_valid_ip (some (dotted b0 b1 b2 b3)) = .ok true := by
  have hany : (dotted b0 b1 b2 b3).any (fun c => decide (c ≠ '.') && !isdigit c) = false := by
    rw [List.any_eq_false]
    intro c hc
    unfold dotted at hc
    simp only [List.mem_append, List.mem_cons] at hc
    rcases hc with hc | hc | hc | hc | hc | hc | hc
    · simp [octet_text_isdigit h0 c hc]
    · simp [hc]
    · simp [octet_text_isdigit h1 c hc]
    · simp [hc]
    · simp [octet_text_isdigit h2 c hc]
    · simp [hc]
    · simp [octet_text_isdigit h3 c hc]
  have hs0 : strtok (dotted b0 b1 b2 b3) ['.']
      = (some (Nat.toDigits 10 b0), Nat.toDigits 10 b1 ++ '.' ::
          (Nat.toDigits 10 b2 ++ '.' :: Nat.toDigits 10 b3)) :=
    strtok_token_then_delim '.' (octet_text_ne_nil h0) (octet_text_no_dot h0)
  have hs1 : strtok (Nat.toDigits 10 b1 ++ '.' ::
      (Nat.toDigits 10 b2 ++ '.' :: Nat.toDigits 10 b3)) ['.']
      = (some (Nat.toDigits 10 b1), Nat.toDigits 10 b2 ++ '.' :: Nat.toDigits 10 b3) :=
    strtok_token_then_delim '.' (octet_text_ne_nil h1) (octet_text_no_dot h1)
  have hs2 : strtok (Nat.toDigits 10 b2 ++ '.' :: Nat.toDigits 10 b3) ['.']
      = (some (Nat.toDigits 10 b2), Nat.toDigits 10 b3) :=
    strtok_token_then_delim '.' (octet_text_ne_nil h2) (octet_text_no_dot h2)
  have hs3 : strtok (Nat.toDigits 10 b3) ['.'] = (some (Nat.toDigits 10 b3), []) :=
    strtok_last_token '.' (octet_text_ne_nil h3) (octet_text_no_dot h3)
  unfold is_valid_ip
  simp only [hany, Bool.false_eq_true, if_false, hs0]
  rw [← is_valid_ip_loop_fuel (_ + 3) _ _ _ (Nat.le_add_right _ _),
    is_valid_ip_loop_step h0 hs1, is_valid_ip_loop_step h1 hs2, is_valid_ip_loop_step h2 hs3,
    is_valid_ip_loop_last h3]
  rfl

theorem inet_pton_dotted {b0 b1 b2 b3 : Nat} (h0 : b0 < 256) (h1 : b1 < 256)
    (h2 : b2 < 256) (h3 : b3 < 256) :
    inet_pton (dotted b0 b1 b2 b3) = some (b0 + b1 * 2 ^ 8 + b2 * 2 ^ 16 + b3 * 2 ^ 24) := by
  have hl : inet_pton4_loop (dotted b0 b1 b2 b3) false 0 [] 0 = some [b0, b1, b2, b3] := by
    unfold dotted
    rw [pton_octet_text h0 _ _ (by norm_num), pton_dot (by norm_num),
      pton_octet_text h1 _ _ (by norm_num), pton_dot (by norm_num),
      pton_octet_text h2 _ _ (by norm_num), pton_dot (by norm_num),
      ← List.append_nil (Nat.toDigits 10 b3), pton_octet_text h3 _ _ (by norm_num)]
    simp [inet_pton4_loop]
  unfold inet_pton
  rw [hl]

theorem octets_sum {a : Nat} (ha : a < 2 ^ 32) :
    a % 2 ^ 8 + (a >>> 8) % 2 ^ 8 * 2 ^ 8 + (a >>> 16) % 2 ^ 8 * 2 ^ 16
      + (a >>> 24) % 2 ^ 8 * 2 ^ 24 = a := by
  simp only [Nat.shiftRight_eq_div_pow]
  omega

theorem is_valid_ip_ip_to_str (a : Nat) : is_valid_ip (some (ip_to_str a)) = .ok true := by
  have hm : ∀ x : Nat, x % 2 ^ 8 < 256 := fun x => Nat.mod_lt _ (by norm_num)
  rw [ip_to_str_eq_dotted]
  exact is_valid_ip_dotted (hm _) (hm _) (hm _) (hm _)

theorem inet_pton_ip_to_str {a : Nat} (ha : a < 2 ^ 32) : inet_pton (ip_to_str a) = some a := by
  have hm : ∀ x : Nat, x % 2 ^ 8 < 256 := fun x => Nat.mod_lt _ (by norm_num)
  rw [ip_to_str_eq_dotted, inet_pton_dotted (hm _) (hm _) (hm _) (hm _), octets_sum ha]

theorem str_to_ip_of_parsed (junk : Nat) {s : CStr} {a : Nat} (h : inet_pton s = some a) :
    str_to_ip junk s = a := by
  unfold str_to_ip
  rw [h]

theorem ntohl_octets (a : Nat) :
    (ntohl a >>> 24) % 2 ^ 8 = a % 2 ^ 8 ∧ (ntohl a >>> 16) % 2 ^ 8 = (a >>> 8) % 2 ^ 8 ∧
      (ntohl a >>> 8) % 2 ^ 8 = (a >>> 16) % 2 ^ 8 ∧ ntohl a % 2 ^ 8 = (a >>> 24) % 2 ^ 8 := by
  unfold ntohl
  refine ⟨?_, ?_, ?_, ?_⟩ <;>
  · apply Nat.eq_of_testBit_eq
    intro i
    simp only [Nat.testBit_mod_two_pow, Nat.testBit_shiftRight, testBit_bswap32]
    by_cases hi : i < 8
    · simp [hi, show ¬ (24 + i < 8) by omega, show ¬ (24 + i < 16) by omega,
        show ¬ (24 + i < 24) by omega, show 24 + i < 32 by omega, show 24 ≤ 24 + i by omega,
        show ¬ (16 + i < 8) by omega, show ¬ (16 + i < 16) by omega,
        show 16 + i < 24 by omega, show 16 ≤ 16 + i by omega,
        show ¬ (8 + i < 8) by omega, show 8 + i < 16 by omega, show 8 ≤ 8 + i by omega,
        show ¬ (8 ≤ i) by omega, show ¬ (16 ≤ i) by omega, show ¬ (24 ≤ i) by omega,
        show 16 + i - 8 = 8 + i by omega, show 8 + i + 8 = 16 + i by omega,
        show i + 24 = 24 + i by omega, show ¬ (16 ≤ 8 + i) by omega,
        show ¬ (24 ≤ 8 + i) by omega, show ¬ (24 ≤ 16 + i) by omega]
    · simp [hi]

/-! ## What `inet_pton` accepts is canonical text -/

theorem octets_text_append (l1 l2 : List Nat) :
    octets_text (l1 ++ l2) = octets_text l1 ++ octets_text l2 := by
  induction l1 with
  | nil => rfl
  | cons b bs ih => simp [octets_text, ih, List.append_assoc]

theorem digit_text_facts : ∀ v, v < 10 → Nat.toDigits 10 v = [Char.ofNat (48 + v)] := by
  decide

set_option maxRecDepth 100000 in
theorem octet_text_snoc : ∀ cur, cur < 26 → ∀ v, v < 10 → 1 ≤ cur → cur * 10 + v ≤ 255 →
    Nat.toDigits 10 (cur * 10 + v) = Nat.toDigits 10 cur ++ [Char.ofNat (48 + v)] := by
  decide

theorem isdigit_char_eq {c : Char} (hc : isdigit c = true) :
    c.toNat - 48 < 10 ∧ Char.ofNat (48 + (c.toNat - 48)) = c := by
  unfold isdigit at hc
  simp only [Bool.and_eq_true, decide_eq_true_eq] at hc
  have e : 48 + (c.toNat - 48) = c.toNat := by omega
  rw [e]
  exact ⟨by omega, Char.ofNat_toNat c⟩

theorem pton_loop_text (src : CStr) :
    ∀ (saw : Bool) (oct : Nat) (done : List Nat) (cur : Nat) (bytes : List Nat),
      inet_pton4_loop src saw oct done cur = some bytes →
      (saw = false → cur = 0 ∧ oct < 4) → oct ≤ 4 → cur ≤ 255 → (∀ b ∈ done, b ≤ 255) →
      octets_text bytes
          = octets_text done ++ (if saw then Nat.toDigits 10 cur else []) ++ src ++ ['.']
        ∧ ∀ b ∈ bytes, b ≤ 255 := by
  induction src with
  | nil =>
    intro saw oct done cur bytes h hs ho hc hd
    rw [inet_pton4_loop] at h
    split_ifs at h with h4
    injection h with h
    subst h
    cases saw with
    | false => exact absurd (hs rfl).2 h4
    | true =>
      refine ⟨by simp [octets_text_append, octets_text], ?_⟩
      intro b hb
      rcases List.mem_append.1 hb with hb | hb
      · exact hd b hb
      · rw [List.mem_singleton.1 hb]
        exact hc
  | cons ch src ih =>
    intro saw oct done cur bytes h hs ho hc hd
    by_cases hdg : isdigit ch = true
    · obtain ⟨hv, hch⟩ := isdigit_char_eq hdg
      cases saw with
      | false =>
        obtain ⟨hc0, ho4⟩ := hs rfl
        subst hc0
        rw [pton_first_digit hdg ho4] at h
        obtain ⟨ht, hb⟩ := ih true (oct + 1) done (ch.toNat - 48) bytes h
          (fun hf => by cases hf) (by omega) (by omega) hd
        refine ⟨?_, hb⟩
        rw [ht, digit_text_facts _ hv, hch]
        simp [List.append_assoc]
      | true =>
        by_cases h0 : cur = 0
        · rw [inet_pton4_loop] at h
          simp [hdg, h0] at h
        · by_cases hle : cur * 10 + (ch.toNat - 48) ≤ 255
          · rw [pton_next_digit hdg h0 hle] at h
            obtain ⟨ht, hb⟩ := ih true oct done (cur * 10 + (ch.toNat - 48)) bytes h
              (fun hf => by cases hf) ho hle hd
            refine ⟨?_, hb⟩
            rw [ht, octet_text_snoc cur (by omega) _ hv (by omega) hle, hch]
            simp [List.append_assoc]
          · rw [inet_pton4_loop] at h
            simp [hdg, h0, show cur * 10 + (ch.toNat - 48) > 255 by omega] at h
    · have hdg' : isdigit ch = false := by simpa using hdg
      by_cases hdot : ch = '.'
      · subst hdot
        cases saw with
        | false =>
          rw [inet_pton4_loop] at h
          simp [hdg'] at h
        | true =>
          by_cases h4 : oct = 4
          · rw [inet_pton4_loop] at h
            simp [hdg', h4] at h
          · rw [pton_dot h4] at h
            obtain ⟨ht, hb⟩ := ih false oct (done ++ [cur]) 0 bytes h
              (fun _ => ⟨rfl, by omega⟩) ho (by omega) (by
                intro b hb
                rcases List.mem_append.1 hb with hb | hb
                · exact hd b hb
                · rw [List.mem_singleton.1 hb]
                  exact hc)
            refine ⟨?_, hb⟩
            rw [ht, octets_text_append]
            simp [octets_text, List.append_assoc]
      · rw [inet_pton4_loop] at h
        simp [hdg', hdot] at h

/-- Whatever `inet_pton` accepts is the dotted text of four octets, and the value
stored has these octets in memory order. -/
theorem inet_pton_some {s : CStr} {a : Nat} (h : inet_pton s = some a) :
    ∃ b0 b1 b2 b3, b0 < 256 ∧ b1 < 256 ∧ b2 < 256 ∧ b3 < 256 ∧
      s = dotted b0 b1 b2 b3 ∧ a = b0 + b1 * 2 ^ 8 + b2 * 2 ^ 16 + b3 * 2 ^ 24 := by
  unfold inet_pton at h
  split at h
  · rename_i b0 b1 b2 b3 hl
    injection h with h
    obtain ⟨ht, hb⟩ := pton_loop_text s false 0 [] 0 _ hl (fun _ => ⟨rfl, by norm_num⟩)
      (by norm_num) (by norm_num) (fun b hb => by cases hb)
    have h0 := hb b0 (by simp)
    have h1 := hb b1 (by simp)
    have h2 := hb b2 (by simp)
    have h3 := hb b3 (by simp)
    refine ⟨b0, b1, b2, b3, by omega, by omega, by omega, by omega, ?_, h.symm⟩
    have e : dotted b0 b1 b2 b3 ++ ['.'] = s ++ ['.'] := by
      rw [show s ++ ['.'] = octets_text [b0, b1, b2, b3] from by rw [ht]; simp [octets_text]]
      simp [dotted, octets_text, List.append_assoc]
    exact (List.append_cancel_right e).symm
  · cases h

theorem ip_to_str_of_parsed {s : CStr} {a : Nat} (h : inet_pton s = some a) :
    ip_to_str a = s := by
  obtain ⟨b0, b1, b2, b3, h0, h1, h2, h3, hs, ha⟩ := inet_pton_some h
  rw [ip_to_str_eq_dotted, hs]
  have e0 : a % 2 ^ 8 = b0 := by omega
  have e1 : (a >>> 8) % 2 ^ 8 = b1 := by
    rw [Nat.shiftRight_eq_div_pow]
    omega
  have e2 : (a >>> 16) % 2 ^ 8 = b2 := by
    rw [Nat.shiftRight_eq_div_pow]
    omega
  have e3 : (a >>> 24) % 2 ^ 8 = b3 := by
    rw [Nat.shiftRight_eq_div_pow]
    omega
  rw [e0, e1, e2, e3]

theorem is_valid_ip_of_parsed {s : CStr} {a : Nat} (h : inet_pton s = some a) :
    is_valid_ip (some s) = .ok true := by
  rw [← ip_to_str_of_parsed h]
  exact is_valid_ip_ip_to_str a

theorem inet_pton_lt {s : CStr} {a : Nat} (h : inet_pton s = some a) : a < 2 ^ 32 := by
  obtain ⟨b0, b1, b2, b3, h0, h1, h2, h3, _, ha⟩ := inet_pton_some h
  omega

/-! ## The prefix length text -/

set_option maxRecDepth 100000 in
theorem digitsValue_octet_text : ∀ b, b < 256 → digitsValue (Nat.toDigits 10 b) = b := by
  decide

theorem strtoul_errno (t : CStr) :
    (strtoul t).errno = 0 ∨ ((strtoul t).errno = ERANGE ∧ (strtoul t).result = ULONG_MAX) := by
  unfold strtoul
  rcases scanNumber t with ⟨neg, ds, n⟩
  simp only
  split_ifs
  · exact Or.inl rfl
  · exact Or.inr ⟨rfl, rfl⟩
  · exact Or.inl rfl
  · exact Or.inl rfl

theorem cidr_to_int_ok_iff (t : CStr) (n : Nat) :
    cidr_to_int t = .ok n ↔ (strtoul t).result = n ∧ 1 ≤ n ∧ n ≤ 32 := by
  constructor
  · intro h
    obtain ⟨h1, h2, h3⟩ := cidr_to_int_range h
    exact ⟨h3, h1, h2⟩
  · rintro ⟨h3, h1, h2⟩
    have hU : ULONG_MAX = 18446744073709551615 := by decide
    unfold cidr_to_int
    simp only
    rw [if_neg (by rw [h3, hU]; omega), if_neg (by rw [h3]; omega), h3,
      Nat.mod_eq_of_lt (by omega)]

theorem cidr_to_int_invalid_iff (t : CStr) :
    cidr_to_int t = .error .invalid_cidr ↔
      (strtoul t).errno = 0 ∧ ((strtoul t).result < 1 ∨ 32 < (strtoul t).result) := by
  have hE : ERANGE = 34 := rfl
  unfold cidr_to_int
  simp only
  rcases strtoul_errno t with he | ⟨he, hr⟩
  · rw [if_neg (by rw [he, hE]; omega)]
    split_ifs with h
    · exact ⟨fun _ => ⟨he, h⟩, fun _ => rfl⟩
    · exact ⟨fun hx => (by cases hx), fun hx => absurd hx.2 h⟩
  · rw [if_pos (Or.inl ⟨he, hr⟩)]
    exact ⟨fun hx => (by cases hx), fun hx => (by rw [he, hE] at hx; omega)⟩

theorem isdigit_not_isspace {c : Char} (h : isdigit c = true) : isspace c = false := by
  unfold isdigit at h
  unfold isspace
  simp only [Bool.and_eq_true, decide_eq_true_eq] at h
  simp only [Bool.or_eq_false_iff, Bool.and_eq_false_iff, decide_eq_false_iff_not]
  omega

theorem isdigit_not_sign {c : Char} (h : isdigit c = true) : c ≠ '-' ∧ c ≠ '+' := by
  constructor <;>
  · intro hc
    subst hc
    exact absurd h (by decide)

theorem scanNumber_digits {ds rest : CStr} (hne : ds ≠ [])
    (hd : ∀ c ∈ ds, isdigit c = true)
    (hr : ∀ c, rest.head? = some c → isdigit c = false) :
    scanNumber (ds ++ rest) = (false, ds, ds.length) := by
  cases ds with
  | nil => exact absurd rfl hne
  | cons a tl =>
    have ha := hd a (List.mem_cons_self _ _)
    have hsp := isdigit_not_isspace ha
    obtain ⟨hm, hp⟩ := isdigit_not_sign ha
    have htw : List.takeWhile isdigit rest = [] := by
      cases rest with
      | nil => rfl
      | cons r rs =>
        have := hr r rfl
        simp [List.takeWhile_cons, this]
    unfold scanNumber
    simp only [List.cons_append, List.takeWhile_cons, List.dropWhile_cons, hsp,
      Bool.false_eq_true, if_false, List.head?_cons, Option.some.injEq, hm, hp, decide_False,
      Bool.or_self, List.length_nil, Nat.zero_add, ha, if_true]
    rw [List.takeWhile_append_of_pos (fun c hc => hd c (List.mem_cons_of_mem _ hc)), htw,
      List.append_nil]

theorem cidr_to_int_text_then_rest {m : Nat} (h1 : 1 ≤ m) (h2 : m ≤ 32) (rest : CStr)
    (hr : ∀ c, rest.head? = some c → isdigit c = false) :
    cidr_to_int (Nat.toDigits 10 m ++ rest) = .ok m := by
  have hb : m < 256 := by omega
  rw [cidr_to_int_ok_iff]
  refine ⟨?_, h1, h2⟩
  have hU : ULONG_MAX = 18446744073709551615 := by decide
  unfold strtoul
  rw [scanNumber_digits (octet_text_ne_nil hb) (octet_text_isdigit hb) hr]
  simp only [octet_text_ne_nil hb, if_false, digitsValue_octet_text m hb, Bool.false_eq_true]
  rw [if_neg (by rw [hU]; omega)]

theorem cidr_to_int_no_number {t : CStr} (h : (scanNumber t).2.1 = []) :
    cidr_to_int t = .error .invalid_cidr := by
  rw [cidr_to_int_invalid_iff]
  unfold strtoul
  rcases hs : scanNumber t with ⟨neg, ds, n⟩
  rw [hs] at h
  simp only at h
  subst h
  simp

theorem print_from_cidr_error (junk : Nat) {s ip net : CStr} {e : Exit}
    (hsplit : split_cidr s = (some ip, some net))
    (hip : is_valid_ip (some ip) = .ok true) (hp : cidr_to_int net = .error e) :
    print_from_cidr junk s = .error e := by
  have hm : cidr_to_netmask net = .error e := by
    unfold cidr_to_netmask
    rw [hp]
  unfold print_from_cidr
  rw [hsplit]
  simp only [hip, hm]

/-! ## Network and broadcast address as multiples of the block size -/

theorem and_mask_eq {a h : Nat} (ha : a < 2 ^ 32) (hh : h ≤ 32) :
    a &&& (2 ^ 32 - 2 ^ h) = 2 ^ h * (a / 2 ^ h) := by
  have hle : 2 ^ h ≤ 2 ^ 32 := Nat.pow_le_pow_right (by norm_num) hh
  have hpos : 0 < 2 ^ h := Nat.two_pow_pos h
  have hlt : 2 ^ h - 1 < 2 ^ 32 := by omega
  have hm : 2 ^ 32 - 2 ^ h = not32 (2 ^ h - 1) := by
    rw [not32_eq_sub hlt]
    omega
  apply Nat.eq_of_testBit_eq
  intro i
  have hr := Nat.testBit_mul_pow_two_add (a / 2 ^ h) hpos i
  rw [Nat.add_zero] at hr
  rw [hr, hm, Nat.testBit_and, testBit_not32, Nat.testBit_two_pow_sub_one,
    ← Nat.shiftRight_eq_div_pow, Nat.testBit_shiftRight]
  by_cases hi : i < h
  · simp [hi, show i < 32 by omega]
  · have e : h + (i - h) = i := by omega
    by_cases hi2 : i < 32
    · simp [hi, hi2, e]
    · have : a.testBit i = false :=
        Nat.testBit_lt_two_pow (lt_of_lt_of_le ha (Nat.pow_le_pow_right (by norm_num) (by omega)))
      simp [hi, hi2, e, this]

theorem or_wildcard_eq {a h : Nat} (hh : h ≤ 32) :
    a ||| not32 (2 ^ 32 - 2 ^ h) = 2 ^ h * (a / 2 ^ h) + (2 ^ h - 1) := by
  have hle : 2 ^ h ≤ 2 ^ 32 := Nat.pow_le_pow_right (by norm_num) hh
  have hpos : 0 < 2 ^ h := Nat.two_pow_pos h
  have hm : not32 (2 ^ 32 - 2 ^ h) = 2 ^ h - 1 := by
    rw [not32_eq_sub (by omega)]
    omega
  apply Nat.eq_of_testBit_eq
  intro i
  rw [Nat.testBit_mul_pow_two_add (a / 2 ^ h) (show 2 ^ h - 1 < 2 ^ h by omega) i, hm,
    Nat.testBit_or, Nat.testBit_two_pow_sub_one, ← Nat.shiftRight_eq_div_pow,
    Nat.testBit_shiftRight]
  by_cases hi : i < h
  · simp [hi]
  · have e : h + (i - h) = i := by omega
    simp [hi, e]

/-- Order and size of the usable range, for every address and prefix length in
[1,30]: the values are those of `first_ip`, `last_ip`, `increment_ip` and
`decrement_ip` on the mask of prefix length `p`, read in host order. -/
theorem usable_range_facts {a p : Nat} (h1 : 1 ≤ p) (h30 : p ≤ 30) :
    let m := htonl (2 ^ 32 - 2 ^ (32 - p))
    ntohl (first_ip a m) < ntohl (increment_ip (first_ip a m)) ∧
      ntohl (increment_ip (first_ip a m)) ≤ ntohl (decrement_ip (last_ip a m)) ∧
      ntohl (decrement_ip (last_ip a m)) < ntohl (last_ip a m) ∧
      ntohl (increment_ip (first_ip a m)) = ntohl (first_ip a m) + 1 ∧
      ntohl (decrement_ip (last_ip a m)) + 1 = ntohl (last_ip a m) ∧
      ntohl (last_ip a m) - ntohl (first_ip a m) + 1 = total_addrs p ∧
      sub32 (total_addrs p) 2 = total_addrs p - 2 ∧
      sub32 (total_addrs p) 2
        = ntohl (decrement_ip (last_ip a m)) - ntohl (increment_ip (first_ip a m)) + 1 := by
  intro m
  have hlt : 2 ^ 32 - 2 ^ (32 - p) < 2 ^ 32 := by
    have : 0 < 2 ^ (32 - p) := Nat.two_pow_pos _
    omega
  have hm : ntohl m = 2 ^ 32 - 2 ^ (32 - p) := ntohl_htonl hlt
  have ha : ntohl a < 2 ^ 32 := bswap32_lt a
  have hn : ntohl (first_ip a m) = 2 ^ (32 - p) * (ntohl a / 2 ^ (32 - p)) := by
    rw [ntohl_first_ip, hm, and_mask_eq ha (by omega)]
  have hb : ntohl (last_ip a m)
      = 2 ^ (32 - p) * (ntohl a / 2 ^ (32 - p)) + (2 ^ (32 - p) - 1) := by
    rw [ntohl_last_ip, hm, or_wildcard_eq (by omega)]
  have hblt : ntohl (last_ip a m) < 2 ^ 32 := bswap32_lt _
  have h4 : 4 ≤ 2 ^ (32 - p) := by
    have : 2 ^ 2 ≤ 2 ^ (32 - p) := Nat.pow_le_pow_right (by norm_num) (by omega)
    omega
  have ht : total_addrs p = 2 ^ (32 - p) := total_addrs_of_le h1 (by omega)
  have hs : sub32 (total_addrs p) 2 = total_addrs p - 2 := by
    have hT : 2 ^ (32 - p) < 2 ^ 32 := Nat.pow_lt_pow_right (by norm_num) (by omega)
    have h2 : 2 ≤ 2 ^ (32 - p) := by omega
    rw [ht]
    exact sub32_of_le h2 hT
  rw [ntohl_increment_ip, ntohl_decrement_ip, hs, ht, hn] at *
  rw [hb] at *
  generalize 2 ^ (32 - p) * (ntohl a / 2 ^ (32 - p)) = N at *
  generalize 2 ^ (32 - p) = T at *
  omega

/-! ## The two input forms -/

/-- How the values of a report relate to the reference definitions: network,
broadcast and host count always agree; first and last usable agree except where
the 32-bit increment or decrement wraps, which happens only for the prefix length
32 at the addresses 255.255.255.255 and 0.0.0.0. -/
theorem report_reference_relations {r : Report} {p : Nat} (h1 : 1 ≤ p) (h2 : p ≤ 32)
    (hmask : ntohl r.netmask = 2 ^ 32 - 2 ^ (32 - p))
    (hfirst : r.first = first_ip r.ipaddr r.netmask)
    (hlast : r.last = last_ip r.ipaddr r.netmask)
    (hfuse : r.fuse = increment_ip r.first) (hluse : r.luse = decrement_ip r.last)
    (htotal : r.total = sub32 (total_addrs p) 2) :
    r.host_values.network = (spec_subnet (ntohl r.ipaddr) (ntohl r.netmask) p).network ∧
      r.host_values.broadcast = (spec_subnet (ntohl r.ipaddr) (ntohl r.netmask) p).broadcast ∧
      r.host_values.hostCount = (spec_subnet (ntohl r.ipaddr) (ntohl r.netmask) p).hostCount ∧
      (if p = 32 ∧ ntohl r.ipaddr = 0xFFFFFFFF then
          ntohl r.first = 0xFFFFFFFF ∧ ntohl r.fuse = 0
        else r.host_values.firstUsable
          = (spec_subnet (ntohl r.ipaddr) (ntohl r.netmask) p).firstUsable) ∧
      (if p = 32 ∧ ntohl r.ipaddr = 0 then
          ntohl r.last = 0 ∧ ntohl r.luse = 0xFFFFFFFF
        else r.host_values.lastUsable
          = (spec_subnet (ntohl r.ipaddr) (ntohl r.netmask) p).lastUsable) := by
  have ha : ntohl r.ipaddr < 2 ^ 32 := bswap32_lt _
  have hn : ntohl r.first = ntohl r.ipaddr &&& ntohl r.netmask := by
    rw [hfirst, ntohl_first_ip]
  have hb : ntohl r.last = ntohl r.ipaddr ||| not32 (ntohl r.netmask) := by
    rw [hlast, ntohl_last_ip]
  have hf : ntohl r.fuse = (ntohl r.first + 1) % 2 ^ 32 := by
    rw [hfuse, ntohl_increment_ip]
  have hl : ntohl r.luse = (ntohl r.last + (2 ^ 32 - 1)) % 2 ^ 32 := by
    rw [hluse, ntohl_decrement_ip]
  have hblt : ntohl r.last < 2 ^ 32 := bswap32_lt _
  have hnlt : ntohl r.first < 2 ^ 32 := bswap32_lt _
  have hpow : (2 : Nat) ^ (32 - p) < 2 ^ 32 := Nat.pow_lt_pow_right (by norm_num) (by omega)
  have ht : (r.total : Int) = ((2 : Int) ^ (32 - p) - 2) % 2 ^ 32 := by
    rw [htotal, total_addrs_of_le h1 h2, sub32_two_cast _ hpow]
    push_cast
    rfl
  refine ⟨?_, ?_, ht, ?_, ?_⟩
  · show ((ntohl r.first : Nat) : Int) = ((ntohl r.ipaddr &&& ntohl r.netmask : Nat) : Int)
    rw [hn]
  · show ((ntohl r.last : Nat) : Int)
      = ((ntohl r.ipaddr ||| not32 (ntohl r.netmask) : Nat) : Int)
    rw [hb]
  · by_cases hp : p ≤ 31
    · have hw := @usable_no_wrap (ntohl r.ipaddr) _ _ hp hmask
      rw [if_neg (by omega)]
      show ((ntohl r.fuse : Nat) : Int)
        = ((ntohl r.ipaddr &&& ntohl r.netmask : Nat) : Int) + 1
      rw [← hn]
      rw [← hn] at hw
      omega
    · have hp32 : p = 32 := by omega
      subst hp32
      have hN := and_mask_eq ha (show 32 - 32 ≤ 32 by norm_num)
      rw [← hmask, ← hn] at hN
      simp only [Nat.sub_self, pow_zero, Nat.one_mul, Nat.div_one] at hN
      split_ifs with hc
      · exact ⟨by omega, by omega⟩
      · have hne : ntohl r.ipaddr ≠ 4294967295 := fun h => hc ⟨rfl, h⟩
        show ((ntohl r.fuse : Nat) : Int)
          = ((ntohl r.ipaddr &&& ntohl r.netmask : Nat) : Int) + 1
        rw [← hn]
        omega
  · by_cases hp : p ≤ 31
    · have hw := @usable_no_wrap (ntohl r.ipaddr) _ _ hp hmask
      rw [if_neg (by omega)]
      show ((ntohl r.luse : Nat) : Int)
        = ((ntohl r.ipaddr ||| not32 (ntohl r.netmask) : Nat) : Int) - 1
      rw [← hb]
      rw [← hb] at hw
      omega
    · have hp32 : p = 32 := by omega
      subst hp32
      have hB := @or_wildcard_eq (ntohl r.ipaddr) (32 - 32) (by norm_num)
      rw [← hmask, ← hb] at hB
      simp only [Nat.sub_self, pow_zero, Nat.one_mul, Nat.div_one, Nat.add_zero] at hB
      split_ifs with hc
      · exact ⟨by omega, by omega⟩
      · have hne : ntohl r.ipaddr ≠ 0 := fun h => hc ⟨rfl, h⟩
        show ((ntohl r.luse : Nat) : Int)
          = ((ntohl r.ipaddr ||| not32 (ntohl r.netmask) : Nat) : Int) - 1
        rw [← hb]
        omega

/-! ## The claims -/

/-- C1, counterexample: at 255.255.255.255/32 the network address is 0xFFFFFFFF and
the first usable address that is computed and printed is 0.0.0.0, not network + 1;
at 0.0.0.0/32 the broadcast address is 0 and the last usable address is
255.255.255.255, not broadcast - 1. -/
theorem usable_address_wraps_at_32 :
    (print_from_cidr 0 "255.255.255.255/32".toList).map
        (fun r => (ntohl r.first, ntohl r.fuse, r.fustr,
          decide (r.host_values.firstUsable
            = (spec_subnet (ntohl r.ipaddr) (ntohl r.netmask) 32).firstUsable)))
      = .ok (4294967295, 0, "0.0.0.0".toList, false) ∧
    (print_from_cidr 0 "0.0.0.0/32".toList).map
        (fun r => (ntohl r.last, ntohl r.luse, r.lustr,
          decide (r.host_values.lastUsable
            = (spec_subnet (ntohl r.ipaddr) (ntohl r.netmask) 32).lastUsable)))
      = .ok (0, 4294967295, "255.255.255.255".toList, false) := by
  decide

/-- C1, amended: whenever the argument of `print_from_cidr` splits into an address
text that `is_valid_ip` accepts and a length text that `cidr_to_int` reads as `p`
(so `p` is in [1,32]), `print_from_cidr` returns a report, and so does
`print_from_netmask` on the same address text and any accepted text of the
corresponding mask `2^32 - 2^(32-p)` (the text `ip_to_str` gives for that mask is
one).  The address `a` of the report is what `str_to_ip` returned, the parsed
address whenever `inet_pton` parses the text.  In both reports, in host order:
network is `a AND mask`, broadcast is `a OR (NOT mask)`, the host count is
`(2^(32-p) - 2) mod 2^32`; first usable is `network + 1` except at
255.255.255.255/32, where the network address is 0xFFFFFFFF and the increment
wraps to 0; last usable is `broadcast - 1` except at 0.0.0.0/32, where the
broadcast address is 0 and the decrement wraps to 0xFFFFFFFF.  In particular
192.168.1.1/24 gives network 192.168.1.0, broadcast 192.168.1.255, host min
192.168.1.1, host max 192.168.1.254 and count 254. -/
theorem print_reports_reference_values (junk1 : Nat) (s ip net : CStr) (p : Nat)
    (hsplit : split_cidr s = (some ip, some net))
    (hip : is_valid_ip (some ip) = .ok true)
    (hp : cidr_to_int net = .ok p) :
    1 ≤ p ∧ p ≤ 32 ∧
      (∃ r, print_from_cidr junk1 s = .ok r ∧ r.ipaddr = str_to_ip junk1 ip ∧
        (∀ a, inet_pton ip = some a → r.ipaddr = a) ∧
        ntohl r.netmask = 2 ^ 32 - 2 ^ (32 - p) ∧ r.cidr = p ∧
        r.host_values.network
            = (spec_subnet (ntohl r.ipaddr) (ntohl r.netmask) p).network ∧
        r.host_values.broadcast
            = (spec_subnet (ntohl r.ipaddr) (ntohl r.netmask) p).broadcast ∧
        r.host_values.hostCount
            = (spec_subnet (ntohl r.ipaddr) (ntohl r.netmask) p).hostCount ∧
        (if p = 32 ∧ ntohl r.ipaddr = 0xFFFFFFFF then
            ntohl r.first = 0xFFFFFFFF ∧ ntohl r.fuse = 0
          else r.host_values.firstUsable
            = (spec_subnet (ntohl r.ipaddr) (ntohl r.netmask) p).firstUsable) ∧
        (if p = 32 ∧ ntohl r.ipaddr = 0 then
            ntohl r.last = 0 ∧ ntohl r.luse = 0xFFFFFFFF
          else r.host_values.lastUsable
            = (spec_subnet (ntohl r.ipaddr) (ntohl r.netmask) p).lastUsable)) ∧
      (∀ junk2 mask, is_valid_ip (some mask) = .ok true →
        str_to_ip junk2 mask = htonl (2 ^ 32 - 2 ^ (32 - p)) →
        ∃ r, print_from_netmask junk1 junk2 ip (some mask) = .ok r ∧
        r.ipaddr = str_to_ip junk1 ip ∧
        (∀ a, inet_pton ip = some a → r.ipaddr = a) ∧
        ntohl r.netmask = 2 ^ 32 - 2 ^ (32 - p) ∧ r.cidr = p ∧
        r.host_values.network
            = (spec_subnet (ntohl r.ipaddr) (ntohl r.netmask) p).network ∧
        r.host_values.broadcast
            = (spec_subnet (ntohl r.ipaddr) (ntohl r.netmask) p).broadcast ∧
        r.host_values.hostCount
            = (spec_subnet (ntohl r.ipaddr) (ntohl r.netmask) p).hostCount ∧
        (if p = 32 ∧ ntohl r.ipaddr = 0xFFFFFFFF then
            ntohl r.first = 0xFFFFFFFF ∧ ntohl r.fuse = 0
          else r.host_values.firstUsable
            = (spec_subnet (ntohl r.ipaddr) (ntohl r.netmask) p).firstUsable) ∧
        (if p = 32 ∧ ntohl r.ipaddr = 0 then
            ntohl r.last = 0 ∧ ntohl r.luse = 0xFFFFFFFF
          else r.host_values.lastUsable
            = (spec_subnet (ntohl r.ipaddr) (ntohl r.netmask) p).lastUsable)) ∧
      (is_valid_ip (some (ip_to_str (htonl (2 ^ 32 - 2 ^ (32 - p))))) = .ok true ∧
        ∀ junk2, str_to_ip junk2 (ip_to_str (htonl (2 ^ 32 - 2 ^ (32 - p))))
          = htonl (2 ^ 32 - 2 ^ (32 - p))) ∧
      (print_from_cidr junk1 "192.168.1.1/24".toList).map
          (fun r => (r.fstr, r.lstr, r.fustr, r.lustr, r.total)) =
        .ok ("192.168.1.0".toList, "192.168.1.255".toList, "192.168.1.1".toList,
          "192.168.1.254".toList, 254) := by
  obtain ⟨h1, h2, _⟩ := cidr_to_int_range hp
  have hlt : 2 ^ 32 - 2 ^ (32 - p) < 2 ^ 32 := by
    have : 0 < 2 ^ (32 - p) := Nat.two_pow_pos _
    omega
  refine ⟨h1, h2, ?_, ?_, ⟨mask_text_valid h1 h2, fun junk2 => ?_⟩, ?_⟩
  · obtain ⟨r, hr, ha, hmk, hc, ht, hf, hl, hfu, hlu, _⟩ := print_from_cidr_ok junk1 hsplit hip hp
    have hmk2 : ntohl r.netmask = 2 ^ 32 - 2 ^ (32 - p) := by rw [hmk, ntohl_htonl hlt]
    exact ⟨r, hr, ha, fun a hpa => by rw [ha, str_to_ip_of_parsed junk1 hpa], hmk2, hc,
      report_reference_relations h1 h2 hmk2 hf hl hfu hlu ht⟩
  · intro junk2 mask hmask hm
    have hv : is_valid_mask (str_to_ip junk2 mask) = true := by
      rw [hm, is_valid_mask_iff_not32]
      refine ⟨32 - p, by omega, ?_⟩
      rw [ntohl_htonl hlt]
      exact (not32_eq_pow_sub_one_iff hlt (by omega)).2 rfl
    obtain ⟨r, hr, ha, hmk, hc, ht, hf, hl, hfu, hlu, _⟩ :=
      print_from_netmask_ok junk1 junk2 hmask hip hv
    have hmk2 : ntohl r.netmask = 2 ^ 32 - 2 ^ (32 - p) := by rw [hmk, hm, ntohl_htonl hlt]
    have hc2 : r.cidr = p := by rw [hc, hmk, hm, netmask_to_cidr_htonl_mask h1 h2]
    rw [hc2] at ht
    exact ⟨r, hr, ha, fun a hpa => by rw [ha, str_to_ip_of_parsed junk1 hpa], hmk2, hc2,
      report_reference_relations h1 h2 hmk2 hf hl hfu hlu ht⟩
  · unfold str_to_ip
    rw [mask_text_parsed h1 h2]
  · have hs : str_to_ip junk1 "192.168.1.1".toList = 0x0101A8C0 := by
      unfold str_to_ip
      rw [show inet_pton "192.168.1.1".toList = some 0x0101A8C0 from by decide]
    obtain ⟨r, hr, ha, hmk, _, ht, hf, hl, hfu, hlu, _, _, hfs, hls, hfus, hlus, _⟩ :=
      print_from_cidr_ok junk1
        (show split_cidr "192.168.1.1/24".toList
          = (some "192.168.1.1".toList, some "24".toList) from by decide)
        (by decide) (show cidr_to_int "24".toList = .ok 24 from by decide)
    rw [hs] at ha
    rw [hr]
    show Except.ok (r.fstr, r.lstr, r.fustr, r.lustr, r.total) = _
    rw [hfs, hls, hfus, hlus, hfu, hlu, hf, hl, ht, ha, hmk]
    decide

/-- Witness of C1 (amended) at 192.168.1.1/24. -/
theorem print_reports_reference_values_witness :
    split_cidr "192.168.1.1/24".toList = (some "192.168.1.1".toList, some "24".toList) ∧
    is_valid_ip (some "192.168.1.1".toList) = .ok true ∧
    cidr_to_int "24".toList = .ok 24 ∧
    (1 ≤ 24 ∧ 24 ≤ 32 ∧
      (∃ r, print_from_cidr 0 "192.168.1.1/24".toList = .ok r ∧ r.ipaddr = str_to_ip 0 "192.168.1.1".toList ∧
        (∀ a, inet_pton "192.168.1.1".toList = some a → r.ipaddr = a) ∧
        ntohl r.netmask = 2 ^ 32 - 2 ^ (32 - 24) ∧ r.cidr = 24 ∧
        r.host_values.network
            = (spec_subnet (ntohl r.ipaddr) (ntohl r.netmask) 24).network ∧
        r.host_values.broadcast
            = (spec_subnet (ntohl r.ipaddr) (ntohl r.netmask) 24).broadcast ∧
        r.host_values.hostCount
            = (spec_subnet (ntohl r.ipaddr) (ntohl r.netmask) 24).hostCount ∧
        (if 24 = 32 ∧ ntohl r.ipaddr = 0xFFFFFFFF then
            ntohl r.first = 0xFFFFFFFF ∧ ntohl r.fuse = 0
          else r.host_values.firstUsable
            = (spec_subnet (ntohl r.ipaddr) (ntohl r.netmask) 24).firstUsable) ∧
        (if 24 = 32 ∧ ntohl r.ipaddr = 0 then
            ntohl r.last = 0 ∧ ntohl r.luse = 0xFFFFFFFF
          else r.host_values.lastUsable
            = (spec_subnet (ntohl r.ipaddr) (ntohl r.netmask) 24).lastUsable)) ∧
      (∀ junk2 mask, is_valid_ip (some mask) = .ok true →
        str_to_ip junk2 mask = htonl (2 ^ 32 - 2 ^ (32 - 24)) →
        ∃ r, print_from_netmask 0 junk2 "192.168.1.1".toList (some mask) = .ok r ∧
        r.ipaddr = str_to_ip 0 "192.168.1.1".toList ∧
        (∀ a, inet_pton "192.168.1.1".toList = some a → r.ipaddr = a) ∧
        ntohl r.netmask = 2 ^ 32 - 2 ^ (32 - 24) ∧ r.cidr = 24 ∧
        r.host_values.network
            = (spec_subnet (ntohl r.ipaddr) (ntohl r.netmask) 24).network ∧
        r.host_values.broadcast
            = (spec_subnet (ntohl r.ipaddr) (ntohl r.netmask) 24).broadcast ∧
        r.host_values.hostCount
            = (spec_subnet (ntohl r.ipaddr) (ntohl r.netmask) 24).hostCount ∧
        (if 24 = 32 ∧ ntohl r.ipaddr = 0xFFFFFFFF then
            ntohl r.first = 0xFFFFFFFF ∧ ntohl r.fuse = 0
          else r.host_values.firstUsable
            = (spec_subnet (ntohl r.ipaddr) (ntohl r.netmask) 24).firstUsable) ∧
        (if 24 = 32 ∧ ntohl r.ipaddr = 0 then
            ntohl r.last = 0 ∧ ntohl r.luse = 0xFFFFFFFF
          else r.host_values.lastUsable
            = (spec_subnet (ntohl r.ipaddr) (ntohl r.netmask) 24).lastUsable)) ∧
      (is_valid_ip (some (ip_to_str (htonl (2 ^ 32 - 2 ^ (32 - 24))))) = .ok true ∧
        ∀ junk2, str_to_ip junk2 (ip_to_str (htonl (2 ^ 32 - 2 ^ (32 - 24))))
          = htonl (2 ^ 32 - 2 ^ (32 - 24))) ∧
      (print_from_cidr 0 "192.168.1.1/24".toList).map
          (fun r => (r.fstr, r.lstr, r.fustr, r.lustr, r.total)) =
        .ok ("192.168.1.0".toList, "192.168.1.255".toList, "192.168.1.1".toList,
          "192.168.1.254".toList, 254)) :=
  ⟨by decide, by decide, by decide,
    print_reports_reference_values 0 "192.168.1.1/24".toList "192.168.1.1".toList
      "24".toList 24 (by decide) (by decide) (by decide)⟩

/-- C2: for every 32-bit address `a` and every 32-bit mask `m` accepted by
`is_valid_mask`, the network address has no bit in common with the wildcard mask
(`first_ip a m AND netmask_to_wildcard m = 0`), and the broadcast address masked
with `m` is the network address (`last_ip a m AND m = first_ip a m`). -/
theorem first_last_ip_mask_relations (a m : Nat) (_ha : a < 2 ^ 32) (hm : m < 2 ^ 32)
    (_hv : is_valid_mask m = true) :
    first_ip a m &&& netmask_to_wildcard m = 0 ∧ last_ip a m &&& m = first_ip a m := by
  have hbit : ∀ i, m.testBit i = true → i < 32 := by
    intro i hi
    by_contra hge
    have : m.testBit i = false :=
      Nat.testBit_lt_two_pow (lt_of_lt_of_le hm (Nat.pow_le_pow_right (by norm_num) (by omega)))
    simp [this] at hi
  constructor
  · apply Nat.eq_of_testBit_eq
    intro i
    unfold first_ip netmask_to_wildcard
    simp only [Nat.testBit_and, testBit_not32, Nat.zero_testBit]
    cases hmi : m.testBit i
    · simp
    · simp [hbit i hmi]
  · apply Nat.eq_of_testBit_eq
    intro i
    unfold first_ip last_ip
    simp only [Nat.testBit_and, Nat.testBit_or, testBit_not32, allOnes_eq,
      Nat.testBit_two_pow_sub_one]
    cases hmi : m.testBit i
    · simp
    · simp [hbit i hmi]

/-- Witness of C2 at address 192.168.1.1 and mask 255.255.255.0 (as stored in
`s_addr`). -/
theorem first_last_ip_mask_relations_witness :
    is_valid_mask 0x00FFFFFF = true ∧
      first_ip 0x0101A8C0 0x00FFFFFF &&& netmask_to_wildcard 0x00FFFFFF = 0 ∧
      last_ip 0x0101A8C0 0x00FFFFFF &&& 0x00FFFFFF = first_ip 0x0101A8C0 0x00FFFFFF :=
  ⟨by decide, first_last_ip_mask_relations 0x0101A8C0 0x00FFFFFF (by norm_num) (by norm_num)
    (by decide)⟩

/-- C3: for every mask `m`, `is_valid_mask m` is true exactly when the host-order
value of `m` is `(0xFFFFFFFF << (32 - k)) mod 2^32` for some `k` in [0,32], which
is the same as its 32-bit complement being `2^k - 1` for some `k` in [0,32]; the
mask 255.255.0.255, which has a hole, is reported invalid. -/
theorem is_valid_mask_iff_contiguous (m : Nat) :
    (is_valid_mask m = true ↔
        ∃ k, k ≤ 32 ∧ ntohl m = (0xFFFFFFFF <<< (32 - k)) % 2 ^ 32)
      ∧ (is_valid_mask m = true ↔ ∃ k, k ≤ 32 ∧ not32 (ntohl m) = 2 ^ k - 1)
      ∧ inet_pton "255.255.0.255".toList = some (htonl 0xFFFF00FF)
      ∧ is_valid_mask (htonl 0xFFFF00FF) = false := by
  refine ⟨?_, is_valid_mask_iff_not32 m, by decide, by decide⟩
  rw [is_valid_mask_iff_not32]
  have ht : ntohl m < 2 ^ 32 := bswap32_lt m
  constructor
  · rintro ⟨j, hj, h⟩
    refine ⟨32 - j, by omega, ?_⟩
    have e := shl32_allOnes (show 32 - j ≤ 32 by omega)
    unfold shl32 at e
    rw [e, show 32 - (32 - j) = j by omega]
    exact (not32_eq_pow_sub_one_iff ht hj).1 h
  · rintro ⟨k, hk, h⟩
    refine ⟨32 - k, by omega, ?_⟩
    have e := shl32_allOnes hk
    unfold shl32 at e
    rw [e] at h
    exact (not32_eq_pow_sub_one_iff ht (by omega)).2 h

/-- C4: for every prefix length `p` in [1,32], the decimal text of `p` is read by
`cidr_to_int` as `p`, and for every text that `cidr_to_int` reads as `p`,
`cidr_to_netmask` returns a mask on which `netmask_to_cidr` gives `p` back. -/
theorem netmask_to_cidr_cidr_to_netmask (p : Nat) (h1 : 1 ≤ p) (h2 : p ≤ 32) :
    cidr_to_int (Nat.toDigits 10 p) = .ok p ∧
      ∀ s, cidr_to_int s = .ok p →
        ∃ m, cidr_to_netmask s = .ok m ∧ netmask_to_cidr m = p := by
  refine ⟨cidr_to_int_toDigits h1 h2, ?_⟩
  intro s hs
  exact ⟨_, cidr_to_netmask_eq hs, netmask_to_cidr_htonl_mask h1 h2⟩

/-- Witness of C4 at prefix length 24. -/
theorem netmask_to_cidr_cidr_to_netmask_witness :
    1 ≤ 24 ∧ 24 ≤ 32 ∧ cidr_to_int (Nat.toDigits 10 24) = .ok 24 ∧
      ∀ s, cidr_to_int s = .ok 24 →
        ∃ m, cidr_to_netmask s = .ok m ∧ netmask_to_cidr m = 24 :=
  ⟨by decide, by decide, netmask_to_cidr_cidr_to_netmask 24 (by decide) (by decide)⟩

/-- C5: for every prefix length `p` in [1,32], the decimal text of `p` is read by
`cidr_to_int` as `p`, and for every text that `cidr_to_int` reads as `p`,
`cidr_to_netmask` returns a mask that `is_valid_mask` accepts. -/
theorem is_valid_mask_cidr_to_netmask (p : Nat) (h1 : 1 ≤ p) (h2 : p ≤ 32) :
    cidr_to_int (Nat.toDigits 10 p) = .ok p ∧
      ∀ s, cidr_to_int s = .ok p →
        ∃ m, cidr_to_netmask s = .ok m ∧ is_valid_mask m = true := by
  refine ⟨cidr_to_int_toDigits h1 h2, ?_⟩
  intro s hs
  refine ⟨_, cidr_to_netmask_eq hs, ?_⟩
  rw [is_valid_mask_iff_not32]
  have hlt : 2 ^ 32 - 2 ^ (32 - p) < 2 ^ 32 := by
    have : 0 < 2 ^ (32 - p) := Nat.two_pow_pos _
    omega
  refine ⟨32 - p, by omega, ?_⟩
  rw [ntohl_htonl hlt]
  exact (not32_eq_pow_sub_one_iff hlt (by omega)).2 rfl

/-- Witness of C5 at prefix length 24. -/
theorem is_valid_mask_cidr_to_netmask_witness :
    1 ≤ 24 ∧ 24 ≤ 32 ∧ cidr_to_int (Nat.toDigits 10 24) = .ok 24 ∧
      ∀ s, cidr_to_int s = .ok 24 →
        ∃ m, cidr_to_netmask s = .ok m ∧ is_valid_mask m = true :=
  ⟨by decide, by decide, is_valid_mask_cidr_to_netmask 24 (by decide) (by decide)⟩

/-- C6: for every prefix length `p` in [1,32] and every text that `cidr_to_int`
reads as `p` (the decimal text of `p` is one), `cidr_to_netmask` returns a mask
whose host-order value is `(0xFFFFFFFF << (32 - p)) mod 2^32`, that is
`2^32 - 2^(32-p)`; and whatever number `n` `cidr_to_int` accepts, it is in
[1,32] and the shift amount `32 - n` computed in 32-bit arithmetic is at most 31,
so the shift is never by 32 or more. -/
theorem cidr_to_netmask_host_value (p : Nat) (h1 : 1 ≤ p) (h2 : p ≤ 32) :
    cidr_to_int (Nat.toDigits 10 p) = .ok p ∧
      (∀ s, cidr_to_int s = .ok p →
        ∃ m, cidr_to_netmask s = .ok m ∧
          ntohl m = (0xFFFFFFFF <<< (32 - p)) % 2 ^ 32 ∧
          ntohl m = 2 ^ 32 - 2 ^ (32 - p)) ∧
      (∀ s n, cidr_to_int s = .ok n →
        1 ≤ n ∧ n ≤ 32 ∧ sub32 32 n = 32 - n ∧ sub32 32 n ≤ 31 ∧
          cidr_to_netmask s ≠ .error .undefined_shift) := by
  refine ⟨cidr_to_int_toDigits h1 h2, ?_, ?_⟩
  · intro s hs
    have hlt : 2 ^ 32 - 2 ^ (32 - p) < 2 ^ 32 := by
      have : 0 < 2 ^ (32 - p) := Nat.two_pow_pos _
      omega
    have e := shl32_allOnes h2
    unfold shl32 at e
    exact ⟨_, cidr_to_netmask_eq hs, by rw [ntohl_htonl hlt, e], ntohl_htonl hlt⟩
  · intro s n hs
    obtain ⟨hn1, hn2, _⟩ := cidr_to_int_range hs
    have e : sub32 32 n = 32 - n := sub32_of_le hn2 (by norm_num)
    refine ⟨hn1, hn2, e, by omega, ?_⟩
    rw [cidr_to_netmask_eq hs]
    exact fun h => by cases h

/-- Witness of C6 at prefix length 24. -/
theorem cidr_to_netmask_host_value_witness :
    1 ≤ 24 ∧ 24 ≤ 32 ∧ cidr_to_int (Nat.toDigits 10 24) = .ok 24 ∧
      (∀ s, cidr_to_int s = .ok 24 →
        ∃ m, cidr_to_netmask s = .ok m ∧
          ntohl m = (0xFFFFFFFF <<< (32 - 24)) % 2 ^ 32 ∧
          ntohl m = 2 ^ 32 - 2 ^ (32 - 24)) ∧
      (∀ s n, cidr_to_int s = .ok n →
        1 ≤ n ∧ n ≤ 32 ∧ sub32 32 n = 32 - n ∧ sub32 32 n ≤ 31 ∧
          cidr_to_netmask s ≠ .error .undefined_shift) :=
  ⟨by decide, by decide, cidr_to_netmask_host_value 24 (by decide) (by decide)⟩

/-- C7: for every `p` in [1,32], `total_addrs p` is `2^(32-p)`; no doubling of the
loop overflows 32 bits: after any number `j ≤ 32 - p` of rounds the running value
is the true power `2^j`, below `2^32`.  In particular `total_addrs 24 = 256` and
`total_addrs 30 = 4`. -/
theorem total_addrs_eq_two_pow (p : Nat) (h1 : 1 ≤ p) (h2 : p ≤ 32) :
    total_addrs p = 2 ^ (32 - p) ∧
      (∀ j, j ≤ 32 - p → total_addrs_loop j 1 = 2 ^ j ∧ 2 ^ j < 2 ^ 32) ∧
      total_addrs 24 = 256 ∧ total_addrs 30 = 4 := by
  refine ⟨total_addrs_of_le h1 h2, ?_, by decide, by decide⟩
  intro j hj
  have hlt : 2 ^ j < 2 ^ 32 := Nat.pow_lt_pow_right (by norm_num) (by omega)
  refine ⟨?_, hlt⟩
  rw [total_addrs_loop_eq j 1 (by rw [Nat.one_mul]; exact hlt), Nat.one_mul]

/-- Witness of C7 at prefix length 30. -/
theorem total_addrs_eq_two_pow_witness :
    1 ≤ 30 ∧ 30 ≤ 32 ∧ total_addrs 30 = 2 ^ (32 - 30) ∧
      (∀ j, j ≤ 32 - 30 → total_addrs_loop j 1 = 2 ^ j ∧ 2 ^ j < 2 ^ 32) ∧
      total_addrs 24 = 256 ∧ total_addrs 30 = 4 :=
  ⟨by decide, by decide, total_addrs_eq_two_pow 30 (by decide) (by decide)⟩

/-- C8: for every address, the line written by `print_class` is the label followed
by the class and special-use tag that the range table of the specification gives
for the host-order value, the first matching row and the first matching sub-range
winning (an address in no row being "Other"); the line holds at most one tag (at
most one comma).  In particular 192.168.1.1 is Class C Private, 10.0.0.1 Class A
Private, 127.0.0.1 Class A Loopback, 169.254.1.1 Class B APIPA and 224.0.0.1
Class D Multicast. -/
theorem print_class_eq_spec_table (addr : Nat) :
    print_class addr =
        label12 "Class:" ++ spec_class_text (spec_classify (ntohl addr)) ++ [Char.ofNat 10]
      ∧ (spec_class_text (spec_classify (ntohl addr))).count ',' ≤ 1
      ∧ (inet_pton "192.168.1.1".toList).map print_class =
          some (label12 "Class:" ++ "Class C, Private".toList ++ [Char.ofNat 10])
      ∧ (inet_pton "10.0.0.1".toList).map print_class =
          some (label12 "Class:" ++ "Class A, Private".toList ++ [Char.ofNat 10])
      ∧ (inet_pton "127.0.0.1".toList).map print_class =
          some (label12 "Class:" ++ "Class A, Loopback".toList ++ [Char.ofNat 10])
      ∧ (inet_pton "169.254.1.1".toList).map print_class =
          some (label12 "Class:" ++ "Class B, APIPA".toList ++ [Char.ofNat 10])
      ∧ (inet_pton "224.0.0.1".toList).map print_class =
          some (label12 "Class:" ++ "Class D, Multicast".toList ++ [Char.ofNat 10]) := by
  refine ⟨?_, ?_, by decide, by decide, by decide, by decide, by decide⟩
  · show label12 "Class:" ++ class_text (ntohl addr) ++ [Char.ofNat 10] = _
    rw [class_text_eq_spec]
  · rw [← class_text_eq_spec]
    exact class_text_comma_count _

/-- C9, counterexample: the address 255.255.255.255 is in none of the class
ranges; `print_class` takes the "Other" branch for it. -/
theorem print_class_other_reached :
    inet_pton "255.255.255.255".toList = some 0xFFFFFFFF ∧
      print_class 0xFFFFFFFF = label12 "Class:" ++ "Other".toList ++ [Char.ofNat 10] ∧
      ¬ (∃ c, c ∈ ['A', 'B', 'C', 'D', 'E'] ∧ ∃ rest,
          print_class 0xFFFFFFFF = label12 "Class:" ++ "Class ".toList ++ c :: rest) := by
  refine ⟨by decide, by decide, ?_⟩
  rintro ⟨c, _, rest, h⟩
  have e : print_class 0xFFFFFFFF = label12 "Class:" ++ "Other".toList ++ [Char.ofNat 10] := by
    decide
  rw [e] at h
  have h13 := congrArg (fun l => l.get? 13) h
  simp [label12] at h13

/-- C9, amended: for every address other than 255.255.255.255 (host-order value
0xFFFFFFFF), `print_class` reports one of Class A, B, C, D or E; for
255.255.255.255 it reports "Other". -/
theorem print_class_covers_all_but_one (addr : Nat) :
    ∃ text, print_class addr = label12 "Class:" ++ text ++ [Char.ofNat 10] ∧
      ((ntohl addr = 0xFFFFFFFF ∧ text = "Other".toList) ∨
        (ntohl addr ≠ 0xFFFFFFFF ∧ text.take 7 ∈
          ["Class A".toList, "Class B".toList, "Class C".toList, "Class D".toList,
           "Class E".toList])) :=
  ⟨class_text (ntohl addr), rfl, class_text_cases (bswap32_lt addr)⟩

/-- C10, the code at the failing inputs: `is_valid_ip` accepts strings with an empty
group, made by a doubled, a trailing or a leading dot, because `strtok` skips
empty groups and only the four non-empty ones are counted; `inet_pton` then
rejects these strings. -/
theorem is_valid_ip_accepts_empty_groups :
    is_valid_ip (some "1..2.3.4".toList) = .ok true ∧
      is_valid_ip (some "1.2.3.4.".toList) = .ok true ∧
      is_valid_ip (some ".1.2.3.4".toList) = .ok true ∧
      inet_pton "1..2.3.4".toList = none ∧
      inet_pton "1.2.3.4.".toList = none ∧
      inet_pton ".1.2.3.4".toList = none ∧
      ∀ junk, ∃ r, print_from_cidr junk "1..2.3.4/24".toList = .ok r ∧
        r.ipaddr = junk % 2 ^ 32 := by
  refine ⟨by decide, by decide, by decide, by decide, by decide, by decide, ?_⟩
  intro junk
  obtain ⟨r, hr, ha, _⟩ := print_from_cidr_ok junk
    (show split_cidr "1..2.3.4/24".toList = (some "1..2.3.4".toList, some "24".toList) from
      by decide)
    (by decide) (show cidr_to_int "24".toList = .ok 24 from by decide)
  refine ⟨r, hr, ?_⟩
  rw [ha]
  unfold str_to_ip
  rw [show inet_pton "1..2.3.4".toList = none from by decide]

/-- C11, counterexample: `is_valid_ip` accepts "01.2.3.4", `inet_pton` does not
parse it, and whatever `str_to_ip` returns for it, `ip_to_str` does not give the
string back (it never writes a leading zero). -/
theorem roundtrip_fails_on_leading_zero :
    is_valid_ip (some "01.2.3.4".toList) = .ok true ∧
      inet_pton "01.2.3.4".toList = none ∧
      ¬ (∃ junk, ip_to_str (str_to_ip junk "01.2.3.4".toList) = "01.2.3.4".toList) := by
  refine ⟨by decide, by decide, ?_⟩
  rintro ⟨junk, h⟩
  have hlt : str_to_ip junk "01.2.3.4".toList < 2 ^ 32 := by
    unfold str_to_ip
    rw [show inet_pton "01.2.3.4".toList = none from by decide]
    exact Nat.mod_lt _ (by norm_num)
  have hp := inet_pton_ip_to_str hlt
  rw [h, show inet_pton "01.2.3.4".toList = none from by decide] at hp
  cases hp

/-- C11, amended: for every string `s` that `inet_pton` parses, that is the dotted
text of four octets in canonical decimal form (no leading zero, no empty group),
`is_valid_ip` accepts `s`, `str_to_ip` returns the parsed address, and
`ip_to_str (str_to_ip s)` is `s` again. -/
theorem roundtrip_of_parsed_text (junk : Nat) (s : CStr) (a : Nat)
    (hp : inet_pton s = some a) :
    (∃ b0 b1 b2 b3, b0 < 256 ∧ b1 < 256 ∧ b2 < 256 ∧ b3 < 256 ∧ s = dotted b0 b1 b2 b3) ∧
      is_valid_ip (some s) = .ok true ∧ str_to_ip junk s = a ∧
      ip_to_str (str_to_ip junk s) = s := by
  obtain ⟨b0, b1, b2, b3, h0, h1, h2, h3, hs, _⟩ := inet_pton_some hp
  refine ⟨⟨b0, b1, b2, b3, h0, h1, h2, h3, hs⟩, is_valid_ip_of_parsed hp,
    str_to_ip_of_parsed junk hp, ?_⟩
  rw [str_to_ip_of_parsed junk hp]
  exact ip_to_str_of_parsed hp

/-- Witness of C11 (amended) at 192.168.1.1. -/
theorem roundtrip_of_parsed_text_witness :
    inet_pton "192.168.1.1".toList = some 0x0101A8C0 ∧
      (∃ b0 b1 b2 b3, b0 < 256 ∧ b1 < 256 ∧ b2 < 256 ∧ b3 < 256 ∧
        "192.168.1.1".toList = dotted b0 b1 b2 b3) ∧
      is_valid_ip (some "192.168.1.1".toList) = .ok true ∧
      str_to_ip 0 "192.168.1.1".toList = 0x0101A8C0 ∧
      ip_to_str (str_to_ip 0 "192.168.1.1".toList) = "192.168.1.1".toList :=
  ⟨by decide, roundtrip_of_parsed_text 0 "192.168.1.1".toList 0x0101A8C0 (by decide)⟩

/-- C12: for every 32-bit address `a`, `ip_to_str a` is four decimal octets joined
by dots, the most significant octet of the host-order value first; `is_valid_ip`
accepts it; and `str_to_ip (ip_to_str a)` is `a`, whatever the uninitialised `sa`
holds.  For example the address with host-order value 0xC0A80101 is written
192.168.1.1. -/
theorem ip_to_str_octets_and_roundtrip (a : Nat) (ha : a < 2 ^ 32) :
    ip_to_str a = dotted ((ntohl a >>> 24) % 2 ^ 8) ((ntohl a >>> 16) % 2 ^ 8)
        ((ntohl a >>> 8) % 2 ^ 8) (ntohl a % 2 ^ 8) ∧
      is_valid_ip (some (ip_to_str a)) = .ok true ∧
      (∀ junk, str_to_ip junk (ip_to_str a) = a) ∧
      ip_to_str (htonl 0xC0A80101) = "192.168.1.1".toList := by
  obtain ⟨e3, e2, e1, e0⟩ := ntohl_octets a
  refine ⟨?_, is_valid_ip_ip_to_str a, ?_, by decide⟩
  · rw [ip_to_str_eq_dotted, e3, e2, e1, e0]
  · intro junk
    exact str_to_ip_of_parsed junk (inet_pton_ip_to_str ha)

/-- Witness of C12 at 192.168.1.1 as stored in `s_addr`. -/
theorem ip_to_str_octets_and_roundtrip_witness :
    0x0101A8C0 < 2 ^ 32 ∧
      ip_to_str 0x0101A8C0 = dotted ((ntohl 0x0101A8C0 >>> 24) % 2 ^ 8)
        ((ntohl 0x0101A8C0 >>> 16) % 2 ^ 8) ((ntohl 0x0101A8C0 >>> 8) % 2 ^ 8)
        (ntohl 0x0101A8C0 % 2 ^ 8) ∧
      is_valid_ip (some (ip_to_str 0x0101A8C0)) = .ok true ∧
      (∀ junk, str_to_ip junk (ip_to_str 0x0101A8C0) = 0x0101A8C0) ∧
      ip_to_str (htonl 0xC0A80101) = "192.168.1.1".toList :=
  ⟨by norm_num, ip_to_str_octets_and_roundtrip 0x0101A8C0 (by norm_num)⟩

/-- C13, the code at the failing input: `cidr_to_int` reads "24abc", digits followed
by other characters and not the decimal text of 24, as 24; `print_from_cidr`
prints a report for 10.0.0.1/24abc and echoes the raw text on the Subnet line.
The sibling inputs do reject trailing text: the address 10.0.0.1abc and the mask
255.255.255.0abc stop the program. -/
theorem cidr_to_int_accepts_trailing_text :
    cidr_to_int "24abc".toList = .ok 24 ∧ "24abc".toList ≠ Nat.toDigits 10 24 ∧
      (∀ junk, ∃ r, print_from_cidr junk "10.0.0.1/24abc".toList = .ok r ∧ r.cidr = 24 ∧
        r.stdout.get? 1
          = some (label12 "Subnet:" ++ "255.255.255.0 = 24abc".toList ++ [Char.ofNat 10])) ∧
      (∀ junk, print_from_cidr junk "10.0.0.1abc/24".toList = .error .invalid_ip) ∧
      (∀ junk1 junk2 addr,
        print_from_netmask junk1 junk2 addr (some "255.255.255.0abc".toList)
          = .error .missing_mask) := by
  refine ⟨by decide, by decide, ?_, ?_, ?_⟩
  · intro junk
    obtain ⟨r, hr, _, hmk, hc, _, _, _, _, _, _, hn, _, _, _, _, hout⟩ :=
      print_from_cidr_ok junk
        (show split_cidr "10.0.0.1/24abc".toList
          = (some "10.0.0.1".toList, some "24abc".toList) from by decide)
        (by decide) (show cidr_to_int "24abc".toList = .ok 24 from by decide)
    refine ⟨r, hr, hc, ?_⟩
    rw [hout, hn, hmk]
    rfl
  · intro junk
    unfold print_from_cidr
    rw [show split_cidr "10.0.0.1abc/24".toList
      = (some "10.0.0.1abc".toList, some "24".toList) from by decide]
    simp only [show is_valid_ip (some "10.0.0.1abc".toList) = .ok false from by decide]
  · intro junk1 junk2 addr
    unfold print_from_netmask
    simp only [show is_valid_ip (some "255.255.255.0abc".toList) = .ok false from by decide]

/-- C14, the code at the failing input: the mask 0.0.0.0 passes `is_valid_mask` (its
complement is 0xFFFFFFFF and adding 1 wraps to 0), so `print_from_netmask` prints a
report with prefix length 0 on the Subnet line and uses 0 for the host count,
while `print_from_cidr` rejects the prefix length 0. -/
theorem print_from_netmask_accepts_zero_mask :
    is_valid_mask 0 = true ∧
      (∀ junk1 junk2, ∃ r,
        print_from_netmask junk1 junk2 "10.0.0.1".toList (some "0.0.0.0".toList) = .ok r ∧
        r.netmask = 0 ∧ r.cidr = 0 ∧ r.total = 4294967294 ∧
        r.stdout.get? 1 = some (label12 "Subnet:" ++ "0.0.0.0 = 0".toList ++ [Char.ofNat 10])) ∧
      (∀ junk, print_from_cidr junk "10.0.0.1/0".toList = .error .invalid_cidr) := by
  refine ⟨by decide, ?_, ?_⟩
  · intro junk1 junk2
    have hm : str_to_ip junk2 "0.0.0.0".toList = 0 :=
      str_to_ip_of_parsed junk2 (by decide)
    obtain ⟨r, hr, _, hmk, hc, ht, _, _, _, _, _, hn, _, _, _, _, hout⟩ :=
      @print_from_netmask_ok junk1 junk2 "10.0.0.1".toList "0.0.0.0".toList
        (by decide) (by decide) (by rw [hm]; decide)
    rw [hm] at hmk
    have hc0 : r.cidr = 0 := by rw [hc, hmk]; decide
    have ht0 : r.total = 4294967294 := by rw [ht, hc0]; decide
    refine ⟨r, hr, hmk, hc0, ht0, ?_⟩
    rw [hout, hn, hmk, hc0]
    rfl
  · intro junk
    exact print_from_cidr_error junk
      (show split_cidr "10.0.0.1/0".toList = (some "10.0.0.1".toList, some "0".toList) from
        by decide) (by decide) (by decide)

/-- C16, the code at the failing inputs: a mask argument that is present but
malformed (non-numeric text, an octet above 255, a wrong number of groups) stops
`print_from_netmask` with the "Missing subnet mask" error, the same as an absent
mask argument, whatever the address argument is. -/
theorem malformed_mask_reported_missing (junk1 junk2 : Nat) (addr : CStr) :
    print_from_netmask junk1 junk2 addr (some "255.255.255.abc".toList) = .error .missing_mask ∧
      print_from_netmask junk1 junk2 addr (some "255.255.255.256".toList)
        = .error .missing_mask ∧
      print_from_netmask junk1 junk2 addr (some "255.255.255".toList) = .error .missing_mask ∧
      print_from_netmask junk1 junk2 addr none = .error .missing_mask := by
  refine ⟨?_, ?_, ?_, rfl⟩
  · unfold print_from_netmask
    simp only [show is_valid_ip (some "255.255.255.abc".toList) = .ok false from by decide]
  · unfold print_from_netmask
    simp only [show is_valid_ip (some "255.255.255.256".toList) = .ok false from by decide]
  · unfold print_from_netmask
    simp only [show is_valid_ip (some "255.255.255".toList) = .ok false from by decide]

/-- C17, counterexample: for the prefix length 31 the host count of the report is
`2 - 2 = 0`, no underflow and no huge value. -/
theorem host_count_of_31_is_zero :
    total_addrs 31 = 2 ∧ sub32 (total_addrs 31) 2 = 0 ∧
      (print_from_cidr 0 "10.0.0.0/31".toList).map (fun r => r.total) = .ok 0 := by
  decide

/-- C17, amended: the host count of the report is `total_addrs p - 2` in unsigned
32-bit arithmetic for every accepted prefix length; for `p = 32` it is `1 - 2`,
which underflows to 4294967295; for `p = 31` it is `2 - 2 = 0`, a small
non-negative count, with no underflow. -/
theorem host_count_of_degenerate_prefix (junk : Nat) (s ip net : CStr) (p : Nat)
    (hsplit : split_cidr s = (some ip, some net))
    (hip : is_valid_ip (some ip) = .ok true)
    (hp : cidr_to_int net = .ok p) :
    ∃ r, print_from_cidr junk s = .ok r ∧ r.total = sub32 (total_addrs p) 2 ∧
      (p = 32 → total_addrs p = 1 ∧ r.total = 4294967295) ∧
      (p = 31 → total_addrs p = 2 ∧ r.total = 0) := by
  obtain ⟨r, hr, _, _, _, ht, _⟩ := print_from_cidr_ok junk hsplit hip hp
  refine ⟨r, hr, ht, ?_, ?_⟩
  · intro h
    subst h
    rw [ht]
    exact ⟨by decide, by decide⟩
  · intro h
    subst h
    rw [ht]
    exact ⟨by decide, by decide⟩

/-- Witness of C17 (amended) at 10.0.0.1/32. -/
theorem host_count_of_degenerate_prefix_witness :
    split_cidr "10.0.0.1/32".toList = (some "10.0.0.1".toList, some "32".toList) ∧
      is_valid_ip (some "10.0.0.1".toList) = .ok true ∧
      cidr_to_int "32".toList = .ok 32 ∧
      ∃ r, print_from_cidr 0 "10.0.0.1/32".toList = .ok r ∧
        r.total = sub32 (total_addrs 32) 2 ∧
        (32 = 32 → total_addrs 32 = 1 ∧ r.total = 4294967295) ∧
        (32 = 31 → total_addrs 32 = 2 ∧ r.total = 0) :=
  ⟨by decide, by decide, by decide,
    host_count_of_degenerate_prefix 0 "10.0.0.1/32".toList "10.0.0.1".toList "32".toList 32
      (by decide) (by decide) (by decide)⟩

/-- C18: for every 32-bit value `m`, the clear-lowest-set-bit loop of
`netmask_to_cidr` ends within 32 rounds (any loop bound from 32 on gives the same
result) and returns the population count of `m`; hence for every well-formed mask
`(0xFFFFFFFF << (32 - k)) mod 2^32` with `k` in [0,32], in host order or in
network order, it returns exactly `k`. -/
theorem netmask_to_cidr_is_popcount (m : Nat) (hm : m < 2 ^ 32) :
    netmask_to_cidr m = spec_popcount m ∧
      (∀ fuel, 32 ≤ fuel → netmask_to_cidr_loop fuel m 0 = spec_popcount m) ∧
      (∀ k, k ≤ 32 →
        netmask_to_cidr ((0xFFFFFFFF <<< (32 - k)) % 2 ^ 32) = k ∧
        netmask_to_cidr (htonl ((0xFFFFFFFF <<< (32 - k)) % 2 ^ 32)) = k) := by
  refine ⟨netmask_to_cidr_eq_popcount hm, ?_, ?_⟩
  · intro fuel hf
    rw [netmask_to_cidr_loop_eq fuel m 0 hm (le_trans (spec_popcount_le m) hf)
      (by have := spec_popcount_le m; omega)]
    omega
  · intro k hk
    interval_cases k <;> exact ⟨by decide, by decide⟩

/-- Witness of C18 at the mask 255.255.255.0 as stored in `s_addr`. -/
theorem netmask_to_cidr_is_popcount_witness :
    0x00FFFFFF < 2 ^ 32 ∧ netmask_to_cidr 0x00FFFFFF = spec_popcount 0x00FFFFFF ∧
      (∀ fuel, 32 ≤ fuel → netmask_to_cidr_loop fuel 0x00FFFFFF 0 = spec_popcount 0x00FFFFFF) ∧
      (∀ k, k ≤ 32 →
        netmask_to_cidr ((0xFFFFFFFF <<< (32 - k)) % 2 ^ 32) = k ∧
        netmask_to_cidr (htonl ((0xFFFFFFFF <<< (32 - k)) % 2 ^ 32)) = k) :=
  ⟨by norm_num, netmask_to_cidr_is_popcount 0x00FFFFFF (by norm_num)⟩

/-- C19: whenever `print_from_cidr` gets an accepted address text and a prefix
length `p` in [1,30], the report satisfies, in host order,
network < firstUsable ≤ lastUsable < broadcast; `increment_ip` and `decrement_ip`
do not wrap (firstUsable is network + 1, lastUsable + 1 is broadcast);
broadcast - network + 1 is `total_addrs p`; and the host count is
`total_addrs p - 2`, which is lastUsable - firstUsable + 1.  The same relations
hold for every address value `a` on the values of `first_ip`, `last_ip`,
`increment_ip` and `decrement_ip`. -/
theorem usable_range_ordered (junk : Nat) (s ip net : CStr) (p : Nat)
    (hsplit : split_cidr s = (some ip, some net))
    (hip : is_valid_ip (some ip) = .ok true)
    (hp : cidr_to_int net = .ok p) (h30 : p ≤ 30) :
    (∃ r, print_from_cidr junk s = .ok r ∧
      ntohl r.first < ntohl r.fuse ∧ ntohl r.fuse ≤ ntohl r.luse ∧
      ntohl r.luse < ntohl r.last ∧
      ntohl r.fuse = ntohl r.first + 1 ∧ ntohl r.luse + 1 = ntohl r.last ∧
      ntohl r.last - ntohl r.first + 1 = total_addrs p ∧
      r.total = total_addrs p - 2 ∧
      r.total = ntohl r.luse - ntohl r.fuse + 1) ∧
    (∀ a m, m = htonl (2 ^ 32 - 2 ^ (32 - p)) →
      ntohl (first_ip a m) < ntohl (increment_ip (first_ip a m)) ∧
      ntohl (increment_ip (first_ip a m)) ≤ ntohl (decrement_ip (last_ip a m)) ∧
      ntohl (decrement_ip (last_ip a m)) < ntohl (last_ip a m) ∧
      ntohl (increment_ip (first_ip a m)) = ntohl (first_ip a m) + 1 ∧
      ntohl (decrement_ip (last_ip a m)) + 1 = ntohl (last_ip a m) ∧
      ntohl (last_ip a m) - ntohl (first_ip a m) + 1 = total_addrs p ∧
      sub32 (total_addrs p) 2 = total_addrs p - 2 ∧
      sub32 (total_addrs p) 2
        = ntohl (decrement_ip (last_ip a m)) - ntohl (increment_ip (first_ip a m)) + 1) := by
  obtain ⟨h1, _, _⟩ := cidr_to_int_range hp
  constructor
  · obtain ⟨r, hr, _, hmk, _, ht, hf, hl, hfu, hlu, _⟩ := print_from_cidr_ok junk hsplit hip hp
    have hfacts := @usable_range_facts r.ipaddr p h1 h30
    simp only at hfacts
    rw [← hmk, ← hf, ← hl, ← hfu, ← hlu, ← ht] at hfacts
    obtain ⟨a1, a2, a3, a4, a5, a6, a7, a8⟩ := hfacts
    exact ⟨r, hr, a1, a2, a3, a4, a5, a6, a7, a8⟩
  · intro a m hm
    subst hm
    exact @usable_range_facts a p h1 h30

/-- Witness of C19 at 192.168.1.1/24. -/
theorem usable_range_ordered_witness :
    split_cidr "192.168.1.1/24".toList = (some "192.168.1.1".toList, some "24".toList) ∧
    is_valid_ip (some "192.168.1.1".toList) = .ok true ∧
    cidr_to_int "24".toList = .ok 24 ∧ 24 ≤ 30 ∧
    ((∃ r, print_from_cidr 0 "192.168.1.1/24".toList = .ok r ∧
      ntohl r.first < ntohl r.fuse ∧ ntohl r.fuse ≤ ntohl r.luse ∧
      ntohl r.luse < ntohl r.last ∧
      ntohl r.fuse = ntohl r.first + 1 ∧ ntohl r.luse + 1 = ntohl r.last ∧
      ntohl r.last - ntohl r.first + 1 = total_addrs 24 ∧
      r.total = total_addrs 24 - 2 ∧
      r.total = ntohl r.luse - ntohl r.fuse + 1) ∧
    (∀ a m, m = htonl (2 ^ 32 - 2 ^ (32 - 24)) →
      ntohl (first_ip a m) < ntohl (increment_ip (first_ip a m)) ∧
      ntohl (increment_ip (first_ip a m)) ≤ ntohl (decrement_ip (last_ip a m)) ∧
      ntohl (decrement_ip (last_ip a m)) < ntohl (last_ip a m) ∧
      ntohl (increment_ip (first_ip a m)) = ntohl (first_ip a m) + 1 ∧
      ntohl (decrement_ip (last_ip a m)) + 1 = ntohl (last_ip a m) ∧
      ntohl (last_ip a m) - ntohl (first_ip a m) + 1 = total_addrs 24 ∧
      sub32 (total_addrs 24) 2 = total_addrs 24 - 2 ∧
      sub32 (total_addrs 24) 2
        = ntohl (decrement_ip (last_ip a m)) - ntohl (increment_ip (first_ip a m)) + 1)) :=
  ⟨by decide, by decide, by decide, by decide,
    usable_range_ordered 0 "192.168.1.1/24".toList "192.168.1.1".toList "24".toList 24
      (by decide) (by decide) (by decide) (by decide)⟩

end Mask
